import Mathlib

/-!
Shallow embedding of the appointment materialization and pricing engine of
`src/app.py` (welovepets pet scheduler), together with theorems checking the
specification's claims about it.

Conventions of the embedding:
* Calendar dates are integers counting days since Monday 2025-11-03, so that
  Python `date + timedelta(days = n)` is integer addition and
  `date.weekday()` is `d % 7` (0 = Monday).  Times of day are minutes since
  midnight (`time(17, 0)` is `1020`).
* CSV fields arrive as text; real-valued arithmetic (Python floats) is
  modelled over `ℚ`.
* Python `while` loops are translated as fuel-indexed structural recursions;
  the callers supply fuel that provably lets the loop reach its exit
  condition, so on every input where the Python loop terminates the
  translation computes the same list.
* A Python function that can raise an uncaught exception is modelled with an
  outer `Option` whose `none` is the exception.
-/

namespace PetSched

/- Dates are plain integers: days since Monday 2025-11-03 (e.g. 2025-11-05
is `2`, 2025-11-10 is `7`, 2025-11-16 is `13`). -/

/-- Weekday names, as used in `days_mapping` of `generate_recurring_dates`
and in `recurring_days` of a form section. -/
inductive Weekday where
  | monday
  | tuesday
  | wednesday
  | thursday
  | friday
  | saturday
  | sunday
deriving DecidableEq

/-- The offsets of `days_mapping` in `generate_recurring_dates`
(src/app.py lines 751-752). -/
def dayOffset : Weekday → Int
  | .monday => 0
  | .tuesday => 1
  | .wednesday => 2
  | .thursday => 3
  | .friday => 4
  | .saturday => 5
  | .sunday => 6

/-- Python `date.weekday()` / `strftime('%A')` under the integer date
encoding (day 0 is a Monday). -/
def weekdayOf (d : Int) : Weekday :=
  match (d % 7).toNat with
  | 0 => .monday
  | 1 => .tuesday
  | 2 => .wednesday
  | 3 => .thursday
  | 4 => .friday
  | 5 => .saturday
  | _ => .sunday

/-- The recurrence frequencies offered by the form
(src/app.py line 509: `["day", "week", "month", "year"]`). -/
inductive Freq where
  | day
  | week
  | month
  | year
deriving DecidableEq

/-- Fuel-indexed translation of the weekly `while True` loop of
`generate_recurring_dates` (src/app.py lines 761-783).  One unit of fuel is
one loop iteration; the wrapper supplies enough fuel for the loop to reach
its `break` (`current_week_start > end_date`). -/
def weekLoopF (s e : Int) (every : Nat) (days : List Weekday) :
    Nat → Int → Nat → List Int
  | 0, _, _ => []
  | fuel + 1, cws, wc =>
    let emitted :=
      if wc % every = 0 then
        (days.map fun dn => cws + dayOffset dn).filter
          fun cd => decide (s ≤ cd) && decide (cd ≤ e)
      else []
    if e < cws + 7 then emitted
    else emitted ++ weekLoopF s e every days fuel (cws + 7) (wc + 1)

/-- Fuel-indexed translation of the non-weekly
`while current_date <= end_date` loop of `generate_recurring_dates`
(src/app.py lines 785-808); `step` is `every`, `30 * every` or
`365 * every` days and `keep` is the day-of-week filter condition. -/
def dmyLoopF (e : Int) (step : Nat) (keep : Int → Bool) :
    Nat → Int → List Int
  | 0, _ => []
  | fuel + 1, current =>
    if current ≤ e then
      (if keep current then [current] else []) ++
        dmyLoopF e step keep fuel (current + step)
    else []

/-- `generate_recurring_dates` (src/app.py lines 744-812). -/
def generate_recurring_dates (start_date end_date : Int) (frequency : Freq)
    (every : Nat) (days_of_week : List Weekday) : List Int :=
  let raw :=
    match frequency with
    | .week =>
      let week_start := start_date - start_date % 7
      weekLoopF start_date end_date every days_of_week
        ((end_date - week_start).toNat / 7 + 1) week_start 0
    | _ =>
      let step : Nat :=
        match frequency with
        | .day => every
        | .month => 30 * every
        | .year => 365 * every
        | .week => every
      dmyLoopF end_date step
        (fun c => frequency == Freq.day || days_of_week.isEmpty ||
          days_of_week.contains (weekdayOf c))
        ((end_date + 1 - start_date).toNat) start_date
  List.insertionSort (· ≤ ·) raw

/-- A row of `services.csv` as the engine sees it: every field is text
(`pd.read_csv(..., keep_default_na=False)` keeps empty cells as `""`). -/
structure ServiceRow where
  id : String
  service_type_id : String
  number_of_pets : String
  min_duration : String
  max_duration : String
  duration_granularity : String
  charge_block_duration : String
  recommended_staff_rate : String
  recommended_customer_rate : String
  is_active : String
deriving DecidableEq

/-- A row of `service_types.csv`. -/
structure ServiceTypeRec where
  id : String
  name : String
  uses_end_date : String
  is_active : String
deriving DecidableEq

/-!
String primitives.  The Lean core `String` functions (`trim`, `toLower`,
`split`, `toInt?`, the `≤` order, ...) are rewritten here as structural
recursions over the character list `String.data`, with the same semantics
for the ASCII text this program handles, so that concrete runs reduce
inside the kernel.
-/

/-- Python `str.strip()`: drop leading and trailing whitespace. -/
def trimList (cs : List Char) : List Char :=
  ((cs.dropWhile Char.isWhitespace).reverse.dropWhile Char.isWhitespace).reverse

/-- `str.strip()` on a string. -/
def pyTrim (s : String) : String :=
  ⟨trimList s.data⟩

/-- ASCII lower-casing of one character. -/
def lowerChar (c : Char) : Char :=
  if 65 ≤ c.toNat && c.toNat ≤ 90 then Char.ofNat (c.toNat + 32) else c

/-- Python `str.lower()` (on the ASCII text this program handles). -/
def pyLower (s : String) : String :=
  ⟨s.data.map lowerChar⟩

/-- Split a character list at every character satisfying `p`
(Python `str.split(sep)` semantics: empty pieces are kept). -/
def splitPred (p : Char → Bool) : List Char → List Char → List (List Char)
  | [], acc => [acc.reverse]
  | c :: rest, acc =>
    if p c then acc.reverse :: splitPred p rest []
    else splitPred p rest (c :: acc)

/-- Value of an all-digit character list, most significant first
(accumulator form). -/
def decDigitsVal : List Char → Nat → Nat
  | [], acc => acc
  | c :: cs, acc => decDigitsVal cs (acc * 10 + (c.toNat - 48))

/-- A non-empty all-digit character list, or `none`. -/
def digitsToNat? (cs : List Char) : Option Nat :=
  if !cs.isEmpty && cs.all Char.isDigit then some (decDigitsVal cs 0)
  else none

/-- Python `int(word)` on a whitespace-free token: optional sign and
digits; `none` models the `ValueError` on anything else. -/
def parseIntList? : List Char → Option Int
  | '-' :: rest => (digitsToNat? rest).map fun n => -(n : Int)
  | '+' :: rest => (digitsToNat? rest).map fun n => (n : Int)
  | cs => (digitsToNat? cs).map fun n => (n : Int)

/-- Python `float(s)` on the plain decimal strings the catalog uses:
optional surrounding whitespace, optional sign, digits with an optional
fractional part.  `none` models the `ValueError` raised on anything else
(in particular on the empty string). -/
def parseRat? (s : String) : Option ℚ :=
  let t := trimList s.data
  let signed : Bool × List Char :=
    match t with
    | '-' :: rest => (true, rest)
    | '+' :: rest => (false, rest)
    | _ => (false, t)
  let mag : Option ℚ :=
    match splitPred (fun c => c == '.') signed.2 [] with
    | [ip] =>
      if !ip.isEmpty && ip.all Char.isDigit then
        some (decDigitsVal ip 0 : ℚ)
      else none
    | [ip, fp] =>
      if (!ip.isEmpty || !fp.isEmpty) && ip.all Char.isDigit &&
          fp.all Char.isDigit then
        some ((decDigitsVal ip 0 : ℚ) +
          (decDigitsVal fp 0 : ℚ) / (10 : ℚ) ^ fp.length)
      else none
    | _ => none
  mag.map fun q => if signed.1 then -q else q

/-- Python `int(x)` applied to a float value: truncation toward zero. -/
def truncInt (q : ℚ) : Int :=
  if q < 0 then -Rat.floor (-q) else Rat.floor q

/-- Python `str.split()`: split on whitespace, dropping empty pieces. -/
def pyTokens (s : String) : List String :=
  ((splitPred Char.isWhitespace s.data []).filter fun t => !t.isEmpty).map
    fun t => (⟨t⟩ : String)

/-- The pet-count cardinal extraction of `calculate_appointment_price`
(src/app.py lines 964-969 and 995-1004): the first whitespace-separated
token that parses as an integer. -/
def extract_pets_num (s : String) : Option Int :=
  (pyTokens s).findSome? fun t => parseIntList? t.data

/-- One list is an initial segment of another. -/
def isPrefixList : List Char → List Char → Bool
  | [], _ => true
  | _ :: _, [] => false
  | a :: as, b :: bs => a == b && isPrefixList as bs

/-- Python `pat in s` substring containment. -/
def containsSub (pat : List Char) : List Char → Bool
  | [] => pat.isEmpty
  | c :: rest => isPrefixList pat (c :: rest) || containsSub pat rest

/-- Tier-number extraction
`int(price_tier.split()[-1]) if 'Tier' in price_tier else 1`
(src/app.py line 1022); `none` models an uncaught exception. -/
def tier_num_of_label (label : String) : Option Int :=
  if containsSub "Tier".data label.data then
    match (pyTokens label).getLast? with
    | none => none
    | some t => parseIntList? t.data
  else some 1

/-- Code-point lexicographic string order (what Python string `<` and hence
`sort` use), as a structural recursion. -/
def charListLe : List Char → List Char → Bool
  | [], _ => true
  | _ :: _, [] => false
  | a :: as, b :: bs =>
    if a.toNat < b.toNat then true
    else if b.toNat < a.toNat then false
    else charListLe as bs

/-- `calculate_price_rate` (src/app.py lines 613-621). -/
def calculate_price_rate (service : ServiceRow) (tier : Int) : ℚ :=
  match parseRat? service.recommended_customer_rate with
  | some r => r + (tier : ℚ) * (1 / 100)
  | none => 0

/-- `calculate_pay_rate_per_hour` (src/app.py lines 594-610). -/
def calculate_pay_rate_per_hour (service : ServiceRow) (tier : Int) : ℚ :=
  match parseRat? service.recommended_staff_rate,
      parseRat? service.charge_block_duration with
  | some sr, some cbd =>
    (if 0 < cbd then sr / cbd * 60 else sr) + (tier : ℚ) * (1 / 100)
  | _, _ => 0

/-- Fuel-indexed translation of the `while current <= max_duration` loops of
`get_duration_options` (src/app.py lines 234-244). -/
def whileAdd (maxD g : Int) : Nat → Int → List Int
  | 0, _ => []
  | fuel + 1, current =>
    if current ≤ maxD then current :: whileAdd maxD g fuel (current + g)
    else []

/-- The duration options one catalog row contributes in
`get_duration_options` (src/app.py lines 224-250): the loop progression plus
the always-added `min_duration`; `[]` when a numeric field fails to parse
(the `except (ValueError, TypeError): continue`). -/
def rowDurationOptions (r : ServiceRow) : List Int :=
  match parseRat? r.min_duration, parseRat? r.duration_granularity with
  | some minq, some gq =>
    let minD := truncInt minq
    let g := truncInt gq
    if r.max_duration == "0" then
      whileAdd 1440 g ((1440 - minD).toNat + 1) minD ++ [minD]
    else
      match parseRat? r.max_duration with
      | some maxq =>
        let maxD := truncInt maxq
        whileAdd maxD g ((maxD - minD).toNat + 1) minD ++ [minD]
      | none => []
  | _, _ => []

/-- The cap of a row's progression: 1440 for an unlimited row
(`max_duration == 0`), else its truncated `max_duration`. -/
def rowCap (r : ServiceRow) : Int :=
  if r.max_duration == "0" then 1440
  else truncInt ((parseRat? r.max_duration).getD 0)

/-- `get_duration_options` (src/app.py lines 199-253); the services table is
passed explicitly instead of being read from `services.csv`. -/
def get_duration_options (service_type_id : String)
    (services : List ServiceRow) : List Int :=
  if service_type_id == "" then []
  else
    let active := services.filter fun r => pyLower r.is_active == "true"
    let matching := active.filter fun r =>
      r.service_type_id == service_type_id
    if matching.isEmpty then []
    else List.insertionSort (· ≤ ·) (matching.flatMap rowDurationOptions).dedup

/-- One customer line of a form section. -/
structure Customer where
  number_of_pets : Option String
  price_tier : Option String
deriving DecidableEq

/-- One appointment template section, as the free-form dictionary the form
builds; `none` is an absent key. -/
structure ApptSection where
  service_type : Option String
  start_date : Option Int
  start_time : Option Nat
  uses_end_date : Option String
  duration : Option Int
  end_time : Option Nat
  customers : List Customer
  staff_pay_tier : Option String
  is_recurring : Bool
  recurring_end_date : Option Int
  recurring_frequency : Option Freq
  recurring_every : Option Nat
  recurring_days : Option (List Weekday)
deriving DecidableEq

/-- An appointment record as built by `generate_appointments_from_sections`
(src/app.py lines 857-875); both the `duration` and `end_time` keys are
always present, exactly one of them holding a value (the other is `None`). -/
structure Appt where
  service_type : String
  customer : String
  number_of_pets : String
  date : Int
  start_time : Nat
  staff_pay_tier : String
  price_tier : String
  is_recurring : Bool
  section_index : Nat
  duration : Option Int
  end_time : Option Nat
deriving DecidableEq

/-- The appointment dictionary built for one (date, customer) pair
(src/app.py lines 853-875). -/
def mk_appointment (sIdx : Nat) (sec : ApptSection) (svc : String)
    (t0 : Nat) (dt : Int) (cIdx : Nat) (c : Customer) : Appt :=
  { service_type := svc
    customer := "Customer " ++ toString (cIdx + 1)
    number_of_pets := c.number_of_pets.getD "1 pet"
    date := dt
    start_time := t0
    staff_pay_tier := sec.staff_pay_tier.getD "Pay Tier 1"
    price_tier := c.price_tier.getD "Price Tier 1"
    is_recurring := sec.is_recurring
    section_index := sIdx
    duration :=
      if sec.uses_end_date.getD "false" == "false" then
        some (sec.duration.getD 60)
      else none
    end_time :=
      if sec.uses_end_date.getD "false" == "false" then none
      else some (sec.end_time.getD 1020) }

/-- The `for customer_idx, customer in enumerate(customers)` loop
(src/app.py lines 852-877). -/
def customersLoop (sIdx : Nat) (sec : ApptSection) (svc : String) (t0 : Nat)
    (dt : Int) : Nat → List Customer → List Appt
  | _, [] => []
  | cIdx, c :: rest =>
    mk_appointment sIdx sec svc t0 dt cIdx c ::
      customersLoop sIdx sec svc t0 dt (cIdx + 1) rest

/-- The `for appointment_date in appointment_dates` loop
(src/app.py lines 851-877). -/
def datesLoop (sIdx : Nat) (sec : ApptSection) (svc : String) (t0 : Nat) :
    List Int → List Appt
  | [] => []
  | dt :: rest =>
    customersLoop sIdx sec svc t0 dt 0 sec.customers ++
      datesLoop sIdx sec svc t0 rest

/-- The appointment-date determination for one section
(src/app.py lines 833-848). -/
def sectionDates (sec : ApptSection) (d0 : Int) : List Int :=
  if sec.is_recurring then
    let days := sec.recurring_days.getD []
    if days.isEmpty then [d0]
    else
      generate_recurring_dates d0 (sec.recurring_end_date.getD d0)
        (sec.recurring_frequency.getD .week) (sec.recurring_every.getD 1) days
  else [d0]

/-- The `for section_idx, section in enumerate(sections)` loop
(src/app.py lines 820-877), including the required-field skip. -/
def sectionsLoop : Nat → List ApptSection → List Appt
  | _, [] => []
  | sIdx, sec :: rest =>
    (match sec.service_type, sec.start_date, sec.start_time with
      | some svc, some d0, some t0 =>
        if svc == "" then []
        else datesLoop sIdx sec svc t0 (sectionDates sec d0)
      | _, _, _ => []) ++
      sectionsLoop (sIdx + 1) rest

/-- `generate_appointments_from_sections` (src/app.py lines 815-879); the
sections list is passed explicitly instead of being read from session
state. -/
def generate_appointments_from_sections (sections : List ApptSection) :
    List Appt :=
  sectionsLoop 0 sections

/-- One row of the services/service-types left merge
(src/app.py lines 899-907): the service row plus the joined service-type
name, `none` when the left join found no active service type
(a pandas `NaN`). -/
structure MergedRow where
  name : Option String
  row : ServiceRow
deriving DecidableEq

/-- `get_service_types` (src/app.py lines 166-176): the active service
types. -/
def get_service_types (types : List ServiceTypeRec) : List ServiceTypeRec :=
  types.filter fun t => pyLower t.is_active == "true"

/-- The active-services filter plus left merge with service-type names used
by the invoice and pricing paths (src/app.py lines 894-907). -/
def merged_services_of (services : List ServiceRow)
    (types : List ServiceTypeRec) : List MergedRow :=
  (services.filter fun r => pyLower r.is_active == "true").flatMap fun r =>
    let ms := types.filter fun t => t.id == r.service_type_id
    if ms.isEmpty then [{ name := none, row := r }]
    else ms.map fun t => { name := some t.name, row := r }

/-- `calculate_appointment_price` (src/app.py lines 950-1025).  The outer
`Option` is exception behavior (`none` only when the tier label fails to
parse); the inner `Option` is the function's `None` ("no match"). -/
def calculate_appointment_price (apt : Appt)
    (merged_services : List MergedRow) : Option (Option ℚ) :=
  match apt.duration with
  | none => some none
  | some d =>
    let pets_str := pyLower (pyTrim apt.number_of_pets)
    let pets_num := (extract_pets_num pets_str).getD 1
    let matching := merged_services.filter fun m =>
      m.name == some apt.service_type &&
        m.row.charge_block_duration == toString d
    if matching.isEmpty then some none
    else
      let exact := matching.filter fun m =>
        pyLower (pyTrim m.row.number_of_pets) == pets_str
      let selected :=
        if !exact.isEmpty then exact
        else
          let nums := matching.filter fun m =>
            extract_pets_num (pyLower (pyTrim m.row.number_of_pets)) ==
              some pets_num
          if !nums.isEmpty then nums else matching
      match selected.head? with
      | none => some none
      | some m =>
        (tier_num_of_label apt.price_tier).map fun t =>
          some (calculate_price_rate m.row t)

/-- `format_duration_minutes` (src/app.py lines 570-591) on an integer
minute count (the invoice path always passes the appointment's integer
duration). -/
def format_duration_minutes_int (minutes : Int) : String :=
  if minutes = 0 then "0 minutes"
  else
    let days := minutes / 1440
    let hours := minutes % 1440 / 60
    let mins := minutes % 60
    let parts :=
      (if 0 < days then
        [toString days ++ " day" ++ (if days ≠ 1 then "s" else "")]
      else []) ++
      (if 0 < hours then
        [toString hours ++ " hour" ++ (if hours ≠ 1 then "s" else "")]
      else []) ++
      (if 0 < mins then
        [toString mins ++ " minute" ++ (if mins ≠ 1 then "s" else "")]
      else [])
    if parts.isEmpty then "0 minutes" else String.intercalate " " parts

/-- One line of the customer invoice (src/app.py lines 933-941). -/
structure InvoiceLine where
  key : String
  count : Nat
  total : ℚ
deriving DecidableEq

/-- The ordering the invoice is sorted by (src/app.py line 945): ascending
group key in code-point lexicographic order. -/
def lineLe (a b : InvoiceLine) : Prop :=
  charListLe a.key.data b.key.data = true

instance : DecidableRel lineLe := fun a b =>
  inferInstanceAs (Decidable (charListLe a.key.data b.key.data = true))

/-- The group key `f"{service_type_name} - {duration_display}"`
(src/app.py line 925). -/
def invoice_key (apt : Appt) (d : Int) : String :=
  apt.service_type ++ " - " ++ format_duration_minutes_int d

/-- The `invoice_dict` update of one appointment (src/app.py lines 932-941):
bump the existing group or insert a new one at the end (Python dicts keep
insertion order). -/
def updateAcc : List InvoiceLine → String → ℚ → List InvoiceLine
  | [], k, p => [{ key := k, count := 1, total := p }]
  | l :: rest, k, p =>
    if l.key = k then
      { key := l.key, count := l.count + 1, total := l.total + p } :: rest
    else l :: updateAcc rest k p

/-- The per-appointment stage of `calculate_invoice_data`
(src/app.py lines 912-930): skip appointments without a duration, and pair
each of the rest with its group key and resolved price (`0.0` when the
resolver returns `None`).  The outer `none` is a propagated pricing
exception. -/
def itemsOf (merged : List MergedRow) : List Appt → Option (List (String × ℚ))
  | [] => some []
  | apt :: rest =>
    match apt.duration with
    | none => itemsOf merged rest
    | some d =>
      match calculate_appointment_price apt merged with
      | none => none
      | some p =>
        (itemsOf merged rest).map fun items =>
          (invoice_key apt d, p.getD 0) :: items

/-- Folding the priced items into the invoice dictionary
(src/app.py lines 932-941). -/
def buildAcc (items : List (String × ℚ)) (acc : List InvoiceLine) :
    List InvoiceLine :=
  items.foldl (fun a it => updateAcc a it.1 it.2) acc

/-- `calculate_invoice_data` (src/app.py lines 882-947); the catalog tables
are passed explicitly instead of being read from disk. -/
def calculate_invoice_data (appointments : List Appt)
    (services : List ServiceRow) (types : List ServiceTypeRec) :
    Option (List InvoiceLine) :=
  if appointments.isEmpty then some []
  else
    let stypes := get_service_types types
    if services.isEmpty || stypes.isEmpty then some []
    else
      (itemsOf (merged_services_of services stypes) appointments).map
        fun items => List.insertionSort lineLe (buildAcc items [])

/-- Number of priced items falling in a group. -/
def keyCount (k : String) (items : List (String × ℚ)) : Nat :=
  items.countP fun it => it.1 == k

/-- Summed price of the items falling in a group. -/
def keyTotal (k : String) (items : List (String × ℚ)) : ℚ :=
  ((items.filter fun it => it.1 == k).map Prod.snd).sum

/-! ## Weekday arithmetic -/

lemma dayOffset_nonneg (w : Weekday) : 0 ≤ dayOffset w := by
  cases w <;> simp [dayOffset]

lemma dayOffset_lt (w : Weekday) : dayOffset w < 7 := by
  cases w <;> simp [dayOffset]

lemma dayOffset_inj : ∀ (a b : Weekday), dayOffset a = dayOffset b → a = b := by
  intro a b
  cases a <;> cases b <;> simp [dayOffset]

lemma weekdayOf_eq_of (d : Int) (w : Weekday) (h : d % 7 = dayOffset w) :
    weekdayOf d = w := by
  unfold weekdayOf
  rw [h]
  cases w <;> rfl

lemma mondayOf_emod (s : Int) : (s - s % 7) % 7 = 0 := by
  have h : s - s % 7 = 7 * (s / 7) := by omega
  rw [h]
  simp [Int.mul_emod_right]

lemma dayOffset_weekdayOf (d : Int) : dayOffset (weekdayOf d) = d % 7 := by
  have h1 : 0 ≤ d % 7 := Int.emod_nonneg d (by norm_num)
  have h2 : d % 7 < 7 := Int.emod_lt_of_pos d (by norm_num)
  have h : d % 7 = 0 ∨ d % 7 = 1 ∨ d % 7 = 2 ∨ d % 7 = 3 ∨ d % 7 = 4 ∨
      d % 7 = 5 ∨ d % 7 = 6 := by omega
  rcases h with h | h | h | h | h | h | h
  · rw [weekdayOf_eq_of d .monday (by rw [h] ; rfl), h] ; rfl
  · rw [weekdayOf_eq_of d .tuesday (by rw [h] ; rfl), h] ; rfl
  · rw [weekdayOf_eq_of d .wednesday (by rw [h] ; rfl), h] ; rfl
  · rw [weekdayOf_eq_of d .thursday (by rw [h] ; rfl), h] ; rfl
  · rw [weekdayOf_eq_of d .friday (by rw [h] ; rfl), h] ; rfl
  · rw [weekdayOf_eq_of d .saturday (by rw [h] ; rfl), h] ; rfl
  · rw [weekdayOf_eq_of d .sunday (by rw [h] ; rfl), h] ; rfl

/-! ## Branch equations of `generate_recurring_dates` -/

lemma generate_week_eq (s e : Int) (every : Nat) (days : List Weekday) :
    generate_recurring_dates s e .week every days =
      List.insertionSort (· ≤ ·)
        (weekLoopF s e every days ((e - (s - s % 7)).toNat / 7 + 1)
          (s - s % 7) 0) := rfl

lemma generate_day_eq (s e : Int) (every : Nat) (days : List Weekday) :
    generate_recurring_dates s e .day every days =
      List.insertionSort (· ≤ ·)
        (dmyLoopF e every
          (fun c => Freq.day == Freq.day || days.isEmpty ||
            days.contains (weekdayOf c))
          ((e + 1 - s).toNat) s) := rfl

lemma generate_month_eq (s e : Int) (every : Nat) (days : List Weekday) :
    generate_recurring_dates s e .month every days =
      List.insertionSort (· ≤ ·)
        (dmyLoopF e (30 * every)
          (fun c => Freq.month == Freq.day || days.isEmpty ||
            days.contains (weekdayOf c))
          ((e + 1 - s).toNat) s) := rfl

lemma generate_year_eq (s e : Int) (every : Nat) (days : List Weekday) :
    generate_recurring_dates s e .year every days =
      List.insertionSort (· ≤ ·)
        (dmyLoopF e (365 * every)
          (fun c => Freq.year == Freq.day || days.isEmpty ||
            days.contains (weekdayOf c))
          ((e + 1 - s).toNat) s) := rfl

/-! ## The weekly recurrence loop -/

lemma mem_weekEmit {s e cws : Int} {days : List Weekday} {d : Int}
    (hm : cws % 7 = 0) :
    (d ∈ (days.map fun dn => cws + dayOffset dn).filter
        fun cd => decide (s ≤ cd) && decide (cd ≤ e)) ↔
      s ≤ d ∧ d ≤ e ∧ weekdayOf d ∈ days ∧ d - d % 7 = cws := by
  simp only [List.mem_filter, List.mem_map, Bool.and_eq_true, decide_eq_true_eq]
  constructor
  · rintro ⟨⟨dn, hdn, rfl⟩, hs, he⟩
    have h0 := dayOffset_nonneg dn
    have h7 := dayOffset_lt dn
    have hmod : (cws + dayOffset dn) % 7 = dayOffset dn := by omega
    rw [weekdayOf_eq_of _ dn hmod]
    exact ⟨hs, he, hdn, by omega⟩
  · rintro ⟨hs, he, hw, hmon⟩
    have := dayOffset_weekdayOf d
    have h1 : 0 ≤ d % 7 := Int.emod_nonneg d (by norm_num)
    exact ⟨⟨weekdayOf d, hw, by omega⟩, hs, he⟩

lemma mem_weekEmitIf {s e cws : Int} {every wc : Nat} {days : List Weekday}
    {d : Int} (hm : cws % 7 = 0) :
    (d ∈ if wc % every = 0 then
        (days.map fun dn => cws + dayOffset dn).filter
          fun cd => decide (s ≤ cd) && decide (cd ≤ e)
      else []) ↔
      wc % every = 0 ∧ s ≤ d ∧ d ≤ e ∧ weekdayOf d ∈ days ∧
        d - d % 7 = cws := by
  split
  · rw [mem_weekEmit hm]
    tauto
  · simp only [List.not_mem_nil, false_iff]
    tauto

lemma weekLoopF_mem (s e : Int) (every : Nat) (days : List Weekday) :
    ∀ (fuel : Nat) (cws : Int) (wc : Nat), cws % 7 = 0 →
      e < cws + 7 * fuel → ∀ d : Int,
      (d ∈ weekLoopF s e every days fuel cws wc ↔
        s ≤ d ∧ d ≤ e ∧ weekdayOf d ∈ days ∧
          ∃ j : Nat, d - d % 7 = cws + 7 * j ∧ (wc + j) % every = 0) := by
  intro fuel
  induction fuel with
  | zero =>
    intro cws wc hm hf d
    simp only [weekLoopF, List.not_mem_nil, false_iff]
    rintro ⟨hs, he, hw, j, hj, hmod⟩
    have h1 : 0 ≤ d % 7 := Int.emod_nonneg d (by norm_num)
    omega
  | succ fuel ih =>
    intro cws wc hm hf d
    have h1 : 0 ≤ d % 7 := Int.emod_nonneg d (by norm_num)
    have h2 : d % 7 < 7 := Int.emod_lt_of_pos d (by norm_num)
    rw [weekLoopF]
    by_cases hstop : e < cws + 7
    · rw [if_pos hstop, mem_weekEmitIf hm]
      constructor
      · rintro ⟨hev, hs, he, hw, hmon⟩
        exact ⟨hs, he, hw, 0, by omega, by simpa using hev⟩
      · rintro ⟨hs, he, hw, j, hj, hmod⟩
        have hj0 : j = 0 := by omega
        subst hj0
        exact ⟨by simpa using hmod, hs, he, hw, by omega⟩
    · rw [if_neg hstop, List.mem_append, mem_weekEmitIf hm,
        ih (cws + 7) (wc + 1) (by omega) (by omega) d]
      constructor
      · rintro (⟨hev, hs, he, hw, hmon⟩ | ⟨hs, he, hw, j, hj, hmod⟩)
        · exact ⟨hs, he, hw, 0, by omega, by simpa using hev⟩
        · refine ⟨hs, he, hw, j + 1, by omega, ?_⟩
          have harith : wc + (j + 1) = wc + 1 + j := by omega
          rw [harith]
          exact hmod
      · rintro ⟨hs, he, hw, j, hj, hmod⟩
        cases j with
        | zero => exact Or.inl ⟨by simpa using hmod, hs, he, hw, by omega⟩
        | succ j =>
          refine Or.inr ⟨hs, he, hw, j, by omega, ?_⟩
          have harith : wc + 1 + j = wc + (j + 1) := by omega
          rw [harith]
          exact hmod

lemma weekLoopF_lb (s e : Int) (every : Nat) (days : List Weekday) :
    ∀ (fuel : Nat) (cws : Int) (wc : Nat) (d : Int),
      d ∈ weekLoopF s e every days fuel cws wc → cws ≤ d := by
  intro fuel
  induction fuel with
  | zero => simp [weekLoopF]
  | succ fuel ih =>
    intro cws wc d hd
    rw [weekLoopF] at hd
    have hemit : ∀ x : Int,
        (x ∈ if wc % every = 0 then
          (days.map fun dn => cws + dayOffset dn).filter
            fun cd => decide (s ≤ cd) && decide (cd ≤ e)
        else []) → cws ≤ x := by
      intro x hx
      split at hx
      · simp only [List.mem_filter, List.mem_map] at hx
        obtain ⟨⟨dn, _, rfl⟩, _⟩ := hx
        have := dayOffset_nonneg dn
        omega
      · simp at hx
    split at hd
    · exact hemit d hd
    · rcases List.mem_append.mp hd with hd | hd
      · exact hemit d hd
      · have := ih (cws + 7) (wc + 1) d hd
        omega

lemma weekLoopF_nodup (s e : Int) (every : Nat) (days : List Weekday)
    (hnd : days.Nodup) :
    ∀ (fuel : Nat) (cws : Int) (wc : Nat), cws % 7 = 0 →
      (weekLoopF s e every days fuel cws wc).Nodup := by
  intro fuel
  induction fuel with
  | zero => simp [weekLoopF]
  | succ fuel ih =>
    intro cws wc hm
    have hemit : ((if wc % every = 0 then
        (days.map fun dn => cws + dayOffset dn).filter
          fun cd => decide (s ≤ cd) && decide (cd ≤ e)
      else []) : List Int).Nodup := by
      split
      · refine List.Nodup.filter _ (List.Nodup.map ?_ hnd)
        intro a b hab
        have hab2 : cws + dayOffset a = cws + dayOffset b := hab
        exact dayOffset_inj a b (by omega)
      · exact List.nodup_nil
    rw [weekLoopF]
    split
    · exact hemit
    · rw [List.nodup_append]
      refine ⟨hemit, ih (cws + 7) (wc + 1) (by omega), ?_⟩
      intro a ha ha2
      rw [mem_weekEmitIf hm] at ha
      obtain ⟨-, -, -, -, hmon⟩ := ha
      have h1 : 0 ≤ a % 7 := Int.emod_nonneg a (by norm_num)
      have h2 : a % 7 < 7 := Int.emod_lt_of_pos a (by norm_num)
      have hlb := weekLoopF_lb s e every days fuel (cws + 7) (wc + 1) a ha2
      omega

/-! ## The daily/monthly/yearly recurrence loop -/

lemma dmyLoopF_mem (e : Int) (step : Nat) (keep : Int → Bool)
    (hstep : 1 ≤ step) :
    ∀ (fuel : Nat) (current : Int), e < current + fuel → ∀ d : Int,
      (d ∈ dmyLoopF e step keep fuel current ↔
        (∃ k : Nat, d = current + step * k ∧ d ≤ e) ∧ keep d = true) := by
  intro fuel
  induction fuel with
  | zero =>
    intro current hf d
    simp only [dmyLoopF, List.not_mem_nil, false_iff]
    rintro ⟨⟨k, rfl, hd⟩, _⟩
    have hk : (0 : Int) ≤ (step : Int) * (k : Int) := by positivity
    omega
  | succ fuel ih =>
    intro current hf d
    rw [dmyLoopF]
    by_cases hc : current ≤ e
    · rw [if_pos hc, List.mem_append,
        ih (current + step) (by omega) d]
      have hemit : (d ∈ if keep current then [current] else []) ↔
          d = current ∧ keep current = true := by
        split <;> simp_all
      rw [hemit]
      constructor
      · rintro (⟨rfl, hk⟩ | ⟨⟨k, rfl, hd⟩, hk⟩)
        · exact ⟨⟨0, by simp, hc⟩, hk⟩
        · exact ⟨⟨k + 1, by push_cast ; ring, hd⟩, hk⟩
      · rintro ⟨⟨k, rfl, hd⟩, hk⟩
        cases k with
        | zero => exact Or.inl ⟨by simp, by simpa using hk⟩
        | succ k => exact Or.inr ⟨⟨k, by push_cast ; ring, hd⟩, hk⟩
    · rw [if_neg hc]
      simp only [List.not_mem_nil, false_iff]
      rintro ⟨⟨k, rfl, hd⟩, _⟩
      have hk : (0 : Int) ≤ (step : Int) * (k : Int) := by positivity
      omega

lemma dmyLoopF_lb (e : Int) (step : Nat) (keep : Int → Bool) :
    ∀ (fuel : Nat) (current : Int) (d : Int),
      d ∈ dmyLoopF e step keep fuel current → current ≤ d := by
  intro fuel
  induction fuel with
  | zero => simp [dmyLoopF]
  | succ fuel ih =>
    intro current d hd
    rw [dmyLoopF] at hd
    split at hd
    · rcases List.mem_append.mp hd with hd | hd
      · split at hd <;> simp_all
      · have := ih (current + step) d hd
        omega
    · simp at hd

lemma dmyLoopF_nodup (e : Int) (step : Nat) (keep : Int → Bool)
    (hstep : 1 ≤ step) :
    ∀ (fuel : Nat) (current : Int),
      (dmyLoopF e step keep fuel current).Nodup := by
  intro fuel
  induction fuel with
  | zero => simp [dmyLoopF]
  | succ fuel ih =>
    intro current
    rw [dmyLoopF]
    split
    · rw [List.nodup_append]
      refine ⟨by split <;> simp, ih (current + step), ?_⟩
      intro a ha ha2
      have hlb := dmyLoopF_lb e step keep fuel (current + step) a ha2
      have hac : a = current := by
        split at ha
        · simpa using ha
        · simp at ha
      omega
    · exact List.nodup_nil

/-! ## Claim C9: `start_date > end_date` yields an empty sequence -/

lemma weekLoopF_empty (s e : Int) (every : Nat) (days : List Weekday)
    (he : e < s) :
    ∀ (fuel : Nat) (cws : Int) (wc : Nat),
      weekLoopF s e every days fuel cws wc = [] := by
  intro fuel
  induction fuel with
  | zero => intro cws wc ; rfl
  | succ fuel ih =>
    intro cws wc
    have hemit : ((if wc % every = 0 then
        (days.map fun dn => cws + dayOffset dn).filter
          fun cd => decide (s ≤ cd) && decide (cd ≤ e)
      else []) : List Int) = [] := by
      split
      · refine List.filter_eq_nil_iff.mpr ?_
        intro cd _
        simp only [Bool.and_eq_true, decide_eq_true_eq, not_and]
        omega
      · rfl
    rw [weekLoopF]
    split
    · exact hemit
    · rw [hemit, List.nil_append]
      exact ih (cws + 7) (wc + 1)

/-- Claim C9: for every frequency and `every ≥ 1`, an input with
`start_date > end_date` makes `generate_recurring_dates` return the empty
sequence (and, being a total function of its translation, it raises no
error). -/
theorem claim_C9 (s e : Int) (frequency : Freq) (every : Nat)
    (days : List Weekday) (hev : 1 ≤ every) (hlt : e < s) :
    generate_recurring_dates s e frequency every days = [] := by
  have hfuel : (e + 1 - s).toNat = 0 := by omega
  cases frequency
  · rw [generate_day_eq, hfuel]
    rfl
  · rw [generate_week_eq, weekLoopF_empty s e every days hlt]
    rfl
  · rw [generate_month_eq, hfuel]
    rfl
  · rw [generate_year_eq, hfuel]
    rfl

/-- Witness for C9 at a concrete input. -/
theorem claim_C9_witness :
    generate_recurring_dates 5 3 .day 1 [] = [] :=
  claim_C9 5 3 .day 1 [] (by decide) (by decide)

/-! ## Claim C1: the weekly recurrence branch -/

/-- Claim C1: for `start ≤ end`, `every ≥ 1` and a set of weekdays, the
weekly branch of `generate_recurring_dates` returns exactly the dates in
`[start, end]` whose weekday is selected and whose Monday-started week index
(week 0 containing `start_date`) is divisible by `every`, sorted ascending
without duplicates; in particular the spec's two concrete examples hold
(day 0 is Monday 2025-11-03, so `[0, 2, 7, 9]` is
`[2025-11-03, 2025-11-05, 2025-11-10, 2025-11-12]`, and with `every = 2`
over the four weeks up to 2025-11-30 only weeks 0 and 2 contribute). -/
theorem claim_C1 (s e : Int) (every : Nat) (days : List Weekday)
    (hse : s ≤ e) (hev : 1 ≤ every) (hnd : days.Nodup) :
    (List.Sorted (· ≤ ·) (generate_recurring_dates s e .week every days) ∧
      (generate_recurring_dates s e .week every days).Nodup ∧
      ∀ d : Int, d ∈ generate_recurring_dates s e .week every days ↔
        s ≤ d ∧ d ≤ e ∧ weekdayOf d ∈ days ∧
          ∃ j : Nat, d - d % 7 = (s - s % 7) + 7 * j ∧ j % every = 0) ∧
    generate_recurring_dates 0 13 .week 1 [.monday, .wednesday] =
      [0, 2, 7, 9] ∧
    generate_recurring_dates 0 27 .week 2 [.monday, .wednesday] =
      [0, 2, 14, 16] := by
  refine ⟨⟨?_, ?_, ?_⟩, by decide, by decide⟩
  · rw [generate_week_eq]
    exact List.sorted_insertionSort _ _
  · rw [generate_week_eq]
    refine (List.perm_insertionSort _ _).nodup_iff.mpr ?_
    exact weekLoopF_nodup s e every days hnd _ (s - s % 7) 0 (mondayOf_emod s)
  · intro d
    have hs1 : 0 ≤ s % 7 := Int.emod_nonneg s (by norm_num)
    have hs2 : s % 7 < 7 := Int.emod_lt_of_pos s (by norm_num)
    rw [generate_week_eq, List.mem_insertionSort]
    have hfuel : e < (s - s % 7) +
        7 * (((e - (s - s % 7)).toNat / 7 + 1) : Nat) := by
      omega
    rw [weekLoopF_mem s e every days _ (s - s % 7) 0 (mondayOf_emod s) hfuel d]
    simp only [Nat.zero_add]

/-- Witness for C1 at a concrete input. -/
theorem claim_C1_witness :
    (7 : Int) ∈ generate_recurring_dates 0 13 .week 1 [.monday, .wednesday] :=
  ((claim_C1 0 13 1 [.monday, .wednesday] (by decide) (by decide)
      (by decide)).1.2.2 7).mpr
    ⟨by decide, by decide, by decide, 1, by decide, by decide⟩

/-! ## Claim C6: the daily recurrence branch -/

/-- Counterexample to claim C6 as stated: with `frequency = day` and the
non-empty day filter `{Wednesday}`, the generator still emits every stepped
date — day 0 (a Monday) and day 1 (a Tuesday) are both returned even though
neither is a Wednesday, because `if frequency == "day" or not days_of_week`
short-circuits before the weekday check. -/
theorem claim_C6_counterexample :
    generate_recurring_dates 0 1 .day 1 [.wednesday] = [0, 1] ∧
      weekdayOf 0 ≠ .wednesday ∧ weekdayOf 1 ≠ .wednesday := by
  decide

/-- Claim C6 as amended: for `frequency = day` and `every ≥ 1`, the
generator emits every date from `start_date` stepping by `every` days up to
`end_date` inclusive, sorted and duplicate-free, with `days_of_week`
ignored entirely (whether empty or not). -/
theorem claim_C6 (s e : Int) (every : Nat) (days : List Weekday)
    (hev : 1 ≤ every) :
    List.Sorted (· ≤ ·) (generate_recurring_dates s e .day every days) ∧
    (generate_recurring_dates s e .day every days).Nodup ∧
    ∀ d : Int, d ∈ generate_recurring_dates s e .day every days ↔
      ∃ k : Nat, d = s + every * k ∧ d ≤ e := by
  refine ⟨?_, ?_, ?_⟩
  · rw [generate_day_eq]
    exact List.sorted_insertionSort _ _
  · rw [generate_day_eq]
    exact (List.perm_insertionSort _ _).nodup_iff.mpr
      (dmyLoopF_nodup e every _ hev _ s)
  · intro d
    rw [generate_day_eq, List.mem_insertionSort]
    have hfuel : e < s + (((e + 1 - s).toNat : Nat) : Int) := by
      omega
    rw [dmyLoopF_mem e every _ hev _ s hfuel d]
    simp

/-- Witness for C6 at a concrete input. -/
theorem claim_C6_witness :
    (1 : Int) ∈ generate_recurring_dates 0 2 .day 1 [] :=
  ((claim_C6 0 2 1 [] (by decide)).2.2 1).mpr ⟨1, by decide, by decide⟩

/-! ## Claim C5: duration options -/

lemma whileAdd_mem (maxD g : Int) (hg : 1 ≤ g) :
    ∀ (fuel : Nat) (current : Int), maxD < current + fuel → ∀ x : Int,
      (x ∈ whileAdd maxD g fuel current ↔
        ∃ k : Nat, x = current + g * k ∧ x ≤ maxD) := by
  intro fuel
  induction fuel with
  | zero =>
    intro current hf x
    simp only [whileAdd, List.not_mem_nil, false_iff]
    rintro ⟨k, rfl, hx⟩
    have hk : (0 : Int) ≤ g * (k : Int) := by positivity
    omega
  | succ fuel ih =>
    intro current hf x
    rw [whileAdd]
    by_cases hc : current ≤ maxD
    · rw [if_pos hc, List.mem_cons, ih (current + g) (by omega) x]
      constructor
      · rintro (rfl | ⟨k, rfl, hx⟩)
        · exact ⟨0, by simp, hc⟩
        · exact ⟨k + 1, by push_cast ; ring, hx⟩
      · rintro ⟨k, rfl, hx⟩
        cases k with
        | zero => exact Or.inl (by simp)
        | succ k => exact Or.inr ⟨k, by push_cast ; ring, hx⟩
    · rw [if_neg hc]
      simp only [List.not_mem_nil, false_iff]
      rintro ⟨k, rfl, hx⟩
      have hk : (0 : Int) ≤ g * (k : Int) := by positivity
      omega

lemma rowDurationOptions_mem (r : ServiceRow) (minq gq : ℚ)
    (hmin : parseRat? r.min_duration = some minq)
    (hgran : parseRat? r.duration_granularity = some gq)
    (hg1 : 1 ≤ truncInt gq)
    (hmax : r.max_duration = "0" ∨ ∃ maxq, parseRat? r.max_duration = some maxq)
    (x : Int) :
    x ∈ rowDurationOptions r ↔
      (∃ k : Nat, x = truncInt minq + truncInt gq * k ∧ x ≤ rowCap r) ∨
        x = truncInt minq := by
  have hred : rowDurationOptions r =
      (if r.max_duration == "0" then
        whileAdd 1440 (truncInt gq) ((1440 - truncInt minq).toNat + 1)
          (truncInt minq) ++ [truncInt minq]
      else
        match parseRat? r.max_duration with
        | some maxq =>
          whileAdd (truncInt maxq) (truncInt gq)
            ((truncInt maxq - truncInt minq).toNat + 1) (truncInt minq) ++
            [truncInt minq]
        | none => []) := by
    unfold rowDurationOptions
    rw [hmin, hgran]
  rw [hred]
  unfold rowCap
  by_cases hz : r.max_duration = "0"
  · have hzb : (r.max_duration == "0") = true := by simp [hz]
    rw [if_pos hzb, if_pos hzb]
    simp only [List.mem_append, List.mem_singleton]
    rw [whileAdd_mem 1440 (truncInt gq) hg1 _ (truncInt minq) (by omega) x]
  · have hzb : ¬ ((r.max_duration == "0") = true) := by simp [hz]
    rw [if_neg hzb, if_neg hzb]
    rcases hmax with hmax | ⟨maxq, hmaxq⟩
    · exact absurd hmax hz
    · rw [hmaxq]
      simp only [Option.getD_some, List.mem_append, List.mem_singleton]
      rw [whileAdd_mem (truncInt maxq) (truncInt gq) hg1 _ (truncInt minq)
        (by omega) x]

/-- Claim C5: for a (non-empty) service-type id, `get_duration_options`
returns an ascending duplicate-free list equal to the union, over the active
rows matching the id (all assumed numerically well-formed with granularity
at least 1), of the arithmetic progressions
`min, min + g, ...` capped at `max_duration` — or at 1440 when
`max_duration = 0` — with `min_duration` itself always included; the result
is empty when no active matching row exists. -/
theorem claim_C5 (service_type_id : String) (services : List ServiceRow)
    (hid : service_type_id ≠ "")
    (hrows : ∀ r ∈ services, pyLower r.is_active = "true" →
      r.service_type_id = service_type_id →
      (∃ minq, parseRat? r.min_duration = some minq) ∧
      (∃ gq, parseRat? r.duration_granularity = some gq ∧ 1 ≤ truncInt gq) ∧
      (r.max_duration = "0" ∨
        ∃ maxq, parseRat? r.max_duration = some maxq)) :
    List.Sorted (· ≤ ·) (get_duration_options service_type_id services) ∧
    (get_duration_options service_type_id services).Nodup ∧
    ((¬ ∃ r ∈ services, pyLower r.is_active = "true" ∧
        r.service_type_id = service_type_id) →
      get_duration_options service_type_id services = []) ∧
    ∀ x : Int, x ∈ get_duration_options service_type_id services ↔
      ∃ r ∈ services, pyLower r.is_active = "true" ∧
        r.service_type_id = service_type_id ∧
        ∃ minq gq, parseRat? r.min_duration = some minq ∧
          parseRat? r.duration_granularity = some gq ∧
          ((∃ k : Nat, x = truncInt minq + truncInt gq * k ∧ x ≤ rowCap r) ∨
            x = truncInt minq) := by
  have hidb : (service_type_id == "") = false := by simp [hid]
  have hmemmatch : ∀ r : ServiceRow,
      (r ∈ (services.filter fun r => pyLower r.is_active == "true").filter
        (fun r => r.service_type_id == service_type_id)) ↔
      (r ∈ services ∧ pyLower r.is_active = "true" ∧
        r.service_type_id = service_type_id) := by
    intro r
    simp only [List.mem_filter, beq_iff_eq]
    tauto
  unfold get_duration_options
  rw [hidb]
  simp only [Bool.false_eq_true, if_false]
  by_cases hemp : ((services.filter fun r => pyLower r.is_active == "true").filter
      (fun r => r.service_type_id == service_type_id)).isEmpty
  · rw [if_pos hemp]
    rw [List.isEmpty_iff] at hemp
    refine ⟨List.sorted_nil, List.nodup_nil, fun _ => rfl, ?_⟩
    intro x
    simp only [List.not_mem_nil, false_iff]
    rintro ⟨r, hr, hact, hsid, -⟩
    have : r ∈ (([] : List ServiceRow)) := by
      rw [← hemp]
      exact (hmemmatch r).mpr ⟨hr, hact, hsid⟩
    simp at this
  · rw [if_neg hemp]
    refine ⟨List.sorted_insertionSort _ _, ?_, ?_, ?_⟩
    · exact (List.perm_insertionSort _ _).nodup_iff.mpr (List.nodup_dedup _)
    · intro hno
      exfalso
      rw [List.isEmpty_iff] at hemp
      rcases List.exists_mem_of_ne_nil _ hemp with ⟨r, hr⟩
      exact hno ⟨r, ((hmemmatch r).mp hr).1, ((hmemmatch r).mp hr).2⟩
    · intro x
      rw [List.mem_insertionSort, List.mem_dedup, List.mem_flatMap]
      constructor
      · rintro ⟨r, hr, hx⟩
        obtain ⟨hrs, hact, hsid⟩ := (hmemmatch r).mp hr
        obtain ⟨⟨minq, hmin⟩, ⟨gq, hgran, hg1⟩, hmax⟩ := hrows r hrs hact hsid
        refine ⟨r, hrs, hact, hsid, minq, gq, hmin, hgran, ?_⟩
        rwa [rowDurationOptions_mem r minq gq hmin hgran hg1 hmax x] at hx
      · rintro ⟨r, hrs, hact, hsid, minq, gq, hmin, hgran, hx⟩
        obtain ⟨-, ⟨gq2, hgran2, hg1⟩, hmax⟩ := hrows r hrs hact hsid
        have hgq : gq2 = gq := Option.some_inj.mp (hgran2.symm.trans hgran)
        rw [hgq] at hg1
        refine ⟨r, (hmemmatch r).mpr ⟨hrs, hact, hsid⟩, ?_⟩
        rwa [rowDurationOptions_mem r minq gq hmin hgran hg1 hmax x]

/-- Witness for C5 at a concrete input. -/
theorem claim_C5_witness :
    (90 : Int) ∈ get_duration_options "1"
      [{ id := "5", service_type_id := "1", number_of_pets := "2 pets",
         min_duration := "30", max_duration := "90",
         duration_granularity := "30", charge_block_duration := "60",
         recommended_staff_rate := "12", recommended_customer_rate := "10",
         is_active := "true" }] :=
  ((claim_C5 "1" _ (by decide)
      (by
        intro r hr hact hsid
        simp only [List.mem_singleton] at hr
        subst hr
        exact ⟨⟨30, rfl⟩, ⟨30, rfl, by decide⟩, Or.inr ⟨90, rfl⟩⟩)).2.2.2
    90).mpr
    ⟨_, List.mem_singleton.mpr rfl, rfl, rfl, 30, 30, rfl, rfl,
      Or.inl ⟨2, by decide, by decide⟩⟩

/-! ## The appointment materializer -/

lemma customersLoop_length (sIdx : Nat) (sec : ApptSection) (svc : String)
    (t0 : Nat) (dt : Int) :
    ∀ (k : Nat) (cs : List Customer),
      (customersLoop sIdx sec svc t0 dt k cs).length = cs.length := by
  intro k cs
  induction cs generalizing k with
  | nil => rfl
  | cons c rest ih => simp [customersLoop, ih]

lemma customersLoop_getElem (sIdx : Nat) (sec : ApptSection) (svc : String)
    (t0 : Nat) (dt : Int) :
    ∀ (k j : Nat) (cs : List Customer),
      (customersLoop sIdx sec svc t0 dt k cs)[j]? =
        cs[j]?.map fun c => mk_appointment sIdx sec svc t0 dt (k + j) c := by
  intro k j cs
  induction cs generalizing k j with
  | nil => simp [customersLoop]
  | cons c rest ih =>
    cases j with
    | zero => simp [customersLoop]
    | succ j =>
      simp only [customersLoop, List.getElem?_cons_succ]
      rw [ih (k + 1) j]
      have h : k + 1 + j = k + (j + 1) := by omega
      rw [h]

lemma datesLoop_length (sIdx : Nat) (sec : ApptSection) (svc : String)
    (t0 : Nat) :
    ∀ dates : List Int,
      (datesLoop sIdx sec svc t0 dates).length =
        dates.length * sec.customers.length := by
  intro dates
  induction dates with
  | nil => simp [datesLoop]
  | cons dt rest ih =>
    simp only [datesLoop, List.length_append, List.length_cons,
      customersLoop_length, ih]
    ring

lemma datesLoop_getElem (sIdx : Nat) (sec : ApptSection) (svc : String)
    (t0 : Nat) :
    ∀ (dates : List Int) (i j : Nat), j < sec.customers.length →
      ∀ dt, dates[i]? = some dt →
      (datesLoop sIdx sec svc t0 dates)[i * sec.customers.length + j]? =
        (customersLoop sIdx sec svc t0 dt 0 sec.customers)[j]? := by
  intro dates
  induction dates with
  | nil =>
    intro i j hj dt hdt
    simp at hdt
  | cons d rest ih =>
    intro i j hj dt hdt
    cases i with
    | zero =>
      simp only [List.getElem?_cons_zero, Option.some_inj] at hdt
      subst hdt
      simp only [datesLoop, Nat.zero_mul, Nat.zero_add]
      rw [List.getElem?_append_left]
      rw [customersLoop_length]
      exact hj
    | succ i =>
      simp only [List.getElem?_cons_succ] at hdt
      simp only [datesLoop]
      have hm : (i + 1) * sec.customers.length =
          i * sec.customers.length + sec.customers.length := by ring
      rw [List.getElem?_append_right]
      · have harith : (i + 1) * sec.customers.length + j -
            (customersLoop sIdx sec svc t0 d 0 sec.customers).length =
            i * sec.customers.length + j := by
          rw [customersLoop_length, hm]
          omega
        rw [harith]
        exact ih i j hj dt hdt
      · rw [customersLoop_length, hm]
        omega

lemma generate_single (sec : ApptSection) (svc : String) (d0 : Int) (t0 : Nat)
    (hsvc : sec.service_type = some svc) (h0 : svc ≠ "")
    (hd : sec.start_date = some d0) (ht : sec.start_time = some t0) :
    generate_appointments_from_sections [sec] =
      datesLoop 0 sec svc t0 (sectionDates sec d0) := by
  have hb : (svc == "") = false := by simp [h0]
  simp [generate_appointments_from_sections, sectionsLoop, hsvc, hd, ht, hb]

/-- Claim C3: a section with `service_type`, `start_date` and `start_time`
materializes into exactly `D * C` appointments (its `D` dates crossed with
its `C` customer lines), iterated in date order then customer order, the
`(i, j)` appointment carrying the section's service type and staff pay
tier, the date `dates[i]`, and the positional label `"Customer <j+1>"`. -/
theorem claim_C3 (sec : ApptSection) (svc : String) (d0 : Int) (t0 : Nat)
    (hsvc : sec.service_type = some svc) (h0 : svc ≠ "")
    (hd : sec.start_date = some d0) (ht : sec.start_time = some t0) :
    (generate_appointments_from_sections [sec]).length =
      (sectionDates sec d0).length * sec.customers.length ∧
    ∀ (i j : Nat), j < sec.customers.length →
      ∀ dt, (sectionDates sec d0)[i]? = some dt →
      ∀ c, sec.customers[j]? = some c →
      (generate_appointments_from_sections
          [sec])[i * sec.customers.length + j]? =
        some { service_type := svc
               customer := "Customer " ++ toString (j + 1)
               number_of_pets := c.number_of_pets.getD "1 pet"
               date := dt
               start_time := t0
               staff_pay_tier := sec.staff_pay_tier.getD "Pay Tier 1"
               price_tier := c.price_tier.getD "Price Tier 1"
               is_recurring := sec.is_recurring
               section_index := 0
               duration :=
                 if sec.uses_end_date.getD "false" == "false" then
                   some (sec.duration.getD 60)
                 else none
               end_time :=
                 if sec.uses_end_date.getD "false" == "false" then none
                 else some (sec.end_time.getD 1020) } := by
  rw [generate_single sec svc d0 t0 hsvc h0 hd ht]
  constructor
  · exact datesLoop_length 0 sec svc t0 (sectionDates sec d0)
  · intro i j hj dt hdt c hc
    rw [datesLoop_getElem 0 sec svc t0 (sectionDates sec d0) i j hj dt hdt,
      customersLoop_getElem 0 sec svc t0 dt 0 j sec.customers, hc]
    simp only [mk_appointment, Nat.zero_add]
    rfl

/-- A concrete section used to instantiate C3: three weekly Monday dates
(days 0, 7, 14) and two customer lines. -/
def secC3 : ApptSection :=
  { service_type := some "Walk"
    start_date := some 0
    start_time := some 540
    uses_end_date := some "false"
    duration := some 60
    end_time := none
    customers :=
      [{ number_of_pets := some "1 pet", price_tier := some "Price Tier 1" },
       { number_of_pets := some "2 pets", price_tier := some "Price Tier 2" }]
    staff_pay_tier := some "Pay Tier 2"
    is_recurring := true
    recurring_end_date := some 14
    recurring_frequency := some .week
    recurring_every := some 1
    recurring_days := some [.monday] }

/-- Witness for C3 at a concrete input: 3 dates and 2 customers yield
exactly 6 appointments. -/
theorem claim_C3_witness :
    (generate_appointments_from_sections [secC3]).length = 6 := by
  have h := (claim_C3 secC3 "Walk" 0 540 rfl (by decide) rfl rfl).1
  rw [h]
  decide

/-! ## Claims C7 and C10: the duration-versus-end-time fields -/

lemma mem_customersLoop (sIdx : Nat) (sec : ApptSection) (svc : String)
    (t0 : Nat) (dt : Int) :
    ∀ (k : Nat) (cs : List Customer) (a : Appt),
      a ∈ customersLoop sIdx sec svc t0 dt k cs →
      ∃ (n : Nat) (c : Customer),
        a = mk_appointment sIdx sec svc t0 dt n c := by
  intro k cs
  induction cs generalizing k with
  | nil => simp [customersLoop]
  | cons c rest ih =>
    intro a ha
    rw [customersLoop, List.mem_cons] at ha
    rcases ha with rfl | ha
    · exact ⟨k, c, rfl⟩
    · exact ih (k + 1) a ha

lemma mem_datesLoop (sIdx : Nat) (sec : ApptSection) (svc : String)
    (t0 : Nat) :
    ∀ (dates : List Int) (a : Appt),
      a ∈ datesLoop sIdx sec svc t0 dates →
      ∃ (dt : Int) (n : Nat) (c : Customer),
        a = mk_appointment sIdx sec svc t0 dt n c := by
  intro dates
  induction dates with
  | nil => simp [datesLoop]
  | cons d rest ih =>
    intro a ha
    rw [datesLoop, List.mem_append] at ha
    rcases ha with ha | ha
    · obtain ⟨n, c, rfl⟩ :=
        mem_customersLoop sIdx sec svc t0 d 0 sec.customers a ha
      exact ⟨d, n, c, rfl⟩
    · exact ih a ha

lemma mem_sectionsLoop :
    ∀ (s0 : Nat) (secs : List ApptSection) (a : Appt),
      a ∈ sectionsLoop s0 secs →
      ∃ (sIdx : Nat) (sec : ApptSection) (svc : String) (t0 : Nat) (dt : Int)
        (n : Nat) (c : Customer), sec ∈ secs ∧
        a = mk_appointment sIdx sec svc t0 dt n c := by
  intro s0 secs
  induction secs generalizing s0 with
  | nil => simp [sectionsLoop]
  | cons sec rest ih =>
    intro a ha
    rw [sectionsLoop, List.mem_append] at ha
    rcases ha with ha | ha
    · cases hsvc : sec.service_type with
      | none => rw [hsvc] at ha ; simp at ha
      | some svc =>
        cases hd : sec.start_date with
        | none => rw [hsvc, hd] at ha ; simp at ha
        | some d0 =>
          cases ht : sec.start_time with
          | none => rw [hsvc, hd, ht] at ha ; simp at ha
          | some t0 =>
            rw [hsvc, hd, ht] at ha
            simp only [] at ha
            by_cases hb : (svc == "") = true
            · rw [if_pos hb] at ha
              simp at ha
            · rw [if_neg hb] at ha
              obtain ⟨dt, n, c, rfl⟩ :=
                mem_datesLoop s0 sec svc t0 (sectionDates sec d0) a ha
              exact ⟨s0, sec, svc, t0, dt, n, c, List.mem_cons_self sec rest,
                rfl⟩
    · obtain ⟨sIdx, sec2, svc, t0, dt, n, c, hmem, rfl⟩ := ih (s0 + 1) a ha
      exact ⟨sIdx, sec2, svc, t0, dt, n, c, List.mem_cons_of_mem sec hmem,
        rfl⟩

/-- Claim C7: every materialized appointment has exactly one of `duration`
and `end_time` populated (the other is `None`), selected by the section's
`uses_end_date` flag, with present section values copied (and the
hard-coded defaults of C10 filling in absent ones). -/
theorem claim_C7 :
    (∀ (sections : List ApptSection) (a : Appt),
      a ∈ generate_appointments_from_sections sections →
      (a.duration.isSome = true ∧ a.end_time = none) ∨
        (a.duration = none ∧ a.end_time.isSome = true)) ∧
    (∀ (sec : ApptSection) (a : Appt),
      a ∈ generate_appointments_from_sections [sec] →
      (sec.uses_end_date.getD "false" = "false" →
        a.end_time = none ∧ a.duration = some (sec.duration.getD 60)) ∧
      (sec.uses_end_date.getD "false" ≠ "false" →
        a.duration = none ∧ a.end_time = some (sec.end_time.getD 1020))) := by
  constructor
  · intro sections a ha
    obtain ⟨sIdx, sec, svc, t0, dt, n, c, -, rfl⟩ :=
      mem_sectionsLoop 0 sections a ha
    by_cases hb : (sec.uses_end_date.getD "false" == "false") = true
    · left
      constructor <;> simp [mk_appointment, hb]
    · right
      rw [Bool.not_eq_true] at hb
      constructor <;> simp [mk_appointment, hb]
  · intro sec a ha
    obtain ⟨sIdx, sec2, svc, t0, dt, n, c, hmem, rfl⟩ :=
      mem_sectionsLoop 0 [sec] a ha
    rw [List.mem_singleton] at hmem
    subst hmem
    constructor
    · intro hflag
      have hb : (sec2.uses_end_date.getD "false" == "false") = true := by
        simp [hflag]
      constructor <;> simp [mk_appointment, hb]
    · intro hflag
      have hb : (sec2.uses_end_date.getD "false" == "false") = false := by
        simp [hflag]
      constructor <;> simp [mk_appointment, hb]

/-- A concrete valid duration-based section instantiating C7. -/
def secC7 : ApptSection :=
  { service_type := some "Walk"
    start_date := some 0
    start_time := some 540
    uses_end_date := some "false"
    duration := some 60
    end_time := none
    customers :=
      [{ number_of_pets := some "1 pet", price_tier := some "Price Tier 1" }]
    staff_pay_tier := some "Pay Tier 1"
    is_recurring := false
    recurring_end_date := none
    recurring_frequency := none
    recurring_every := none
    recurring_days := none }

/-- The appointment `secC7` materializes into. -/
def aptC7 : Appt :=
  { service_type := "Walk"
    customer := "Customer 1"
    number_of_pets := "1 pet"
    date := 0
    start_time := 540
    staff_pay_tier := "Pay Tier 1"
    price_tier := "Price Tier 1"
    is_recurring := false
    section_index := 0
    duration := some 60
    end_time := none }

/-- Witness for C7 at a concrete input. -/
theorem claim_C7_witness :
    (aptC7.duration.isSome = true ∧ aptC7.end_time = none) ∨
      (aptC7.duration = none ∧ aptC7.end_time.isSome = true) :=
  claim_C7.1 [secC7] aptC7 (by decide)

/-- Claim C10: a valid duration-based section with no `duration` value
materializes appointments with the fixed default duration 60, and a valid
end-time-based section with no `end_time` value materializes appointments
with the fixed default end time 17:00 (minute 1020). -/
theorem claim_C10 (sec : ApptSection) (svc : String) (d0 : Int) (t0 : Nat)
    (hsvc : sec.service_type = some svc) (h0 : svc ≠ "")
    (hd : sec.start_date = some d0) (ht : sec.start_time = some t0) :
    (sec.uses_end_date.getD "false" = "false" → sec.duration = none →
      ∀ a ∈ generate_appointments_from_sections [sec],
        a.duration = some 60) ∧
    (sec.uses_end_date.getD "false" ≠ "false" → sec.end_time = none →
      ∀ a ∈ generate_appointments_from_sections [sec],
        a.end_time = some 1020) := by
  constructor
  · intro hflag hdur a ha
    obtain ⟨sIdx, sec2, svc2, t02, dt, n, c, hmem, rfl⟩ :=
      mem_sectionsLoop 0 [sec] a ha
    rw [List.mem_singleton] at hmem
    subst hmem
    have hb : (sec2.uses_end_date.getD "false" == "false") = true := by
      simp [hflag]
    simp [mk_appointment, hb, hdur]
  · intro hflag hend a ha
    obtain ⟨sIdx, sec2, svc2, t02, dt, n, c, hmem, rfl⟩ :=
      mem_sectionsLoop 0 [sec] a ha
    rw [List.mem_singleton] at hmem
    subst hmem
    have hb : (sec2.uses_end_date.getD "false" == "false") = false := by
      simp [hflag]
    simp [mk_appointment, hb, hend]

/-- A concrete valid duration-based section with no duration value. -/
def secC10 : ApptSection :=
  { service_type := some "Walk"
    start_date := some 0
    start_time := some 540
    uses_end_date := some "false"
    duration := none
    end_time := none
    customers :=
      [{ number_of_pets := some "1 pet", price_tier := some "Price Tier 1" }]
    staff_pay_tier := some "Pay Tier 1"
    is_recurring := false
    recurring_end_date := none
    recurring_frequency := none
    recurring_every := none
    recurring_days := none }

/-- The appointment `secC10` materializes into. -/
def aptC10 : Appt :=
  { service_type := "Walk"
    customer := "Customer 1"
    number_of_pets := "1 pet"
    date := 0
    start_time := 540
    staff_pay_tier := "Pay Tier 1"
    price_tier := "Price Tier 1"
    is_recurring := false
    section_index := 0
    duration := some 60
    end_time := none }

/-- Witness for C10 at a concrete input. -/
theorem claim_C10_witness : aptC10.duration = some 60 :=
  (claim_C10 secC10 "Walk" 0 540 rfl (by decide) rfl rfl).1 rfl rfl aptC10
    (by decide)

/-! ## Claim C8: tiered price and pay rates -/

/-- A catalog row whose `charge_block_duration` value is missing (empty
text). -/
def rowC8 : ServiceRow :=
  { id := "7"
    service_type_id := "1"
    number_of_pets := "1 pet"
    min_duration := "30"
    max_duration := "90"
    duration_granularity := "30"
    charge_block_duration := ""
    recommended_staff_rate := "12"
    recommended_customer_rate := "10"
    is_active := "true" }

/-- Counterexample to claim C8 as stated: a missing (empty)
`charge_block_duration` makes `calculate_pay_rate_per_hour` return `0.0`
(the `float('')` raises and the handler returns 0), not the raw
`recommended_staff_rate` of 12 the claim's "zero or missing" degenerate
case promises. -/
theorem claim_C8_counterexample :
    calculate_pay_rate_per_hour rowC8 1 = 0 ∧
    rowC8.charge_block_duration = "" ∧
    parseRat? rowC8.recommended_staff_rate = some 12 ∧
    (0 : ℚ) ≠ 12 := by
  refine ⟨rfl, rfl, rfl, by decide⟩

/-- Claim C8 as amended: with a selected row, the customer price is
`recommended_customer_rate + tier * 0.01`; the staff pay rate per hour is
`(recommended_staff_rate / charge_block_duration) * 60 + tier * 0.01`,
degenerating to `recommended_staff_rate + tier * 0.01` (no division) when
`charge_block_duration` parses to zero; a non-numeric or missing (empty)
rate or charge-block field makes the whole computation return `0.0`
instead of raising — including a missing `charge_block_duration`, which
yields `0.0` rather than the degenerate staff rate; and the tier number in
{1, 2, 3} is parsed from the trailing integer of the tier label. -/
theorem claim_C8 :
    (∀ (r : ServiceRow) (t : Int) (q : ℚ),
      parseRat? r.recommended_customer_rate = some q →
      calculate_price_rate r t = q + (t : ℚ) * (1 / 100)) ∧
    (∀ (r : ServiceRow) (t : Int),
      parseRat? r.recommended_customer_rate = none →
      calculate_price_rate r t = 0) ∧
    (∀ (r : ServiceRow) (t : Int) (sq cq : ℚ),
      parseRat? r.recommended_staff_rate = some sq →
      parseRat? r.charge_block_duration = some cq → 0 < cq →
      calculate_pay_rate_per_hour r t =
        sq / cq * 60 + (t : ℚ) * (1 / 100)) ∧
    (∀ (r : ServiceRow) (t : Int) (sq : ℚ),
      parseRat? r.recommended_staff_rate = some sq →
      parseRat? r.charge_block_duration = some 0 →
      calculate_pay_rate_per_hour r t = sq + (t : ℚ) * (1 / 100)) ∧
    (∀ (r : ServiceRow) (t : Int),
      parseRat? r.recommended_staff_rate = none ∨
        parseRat? r.charge_block_duration = none →
      calculate_pay_rate_per_hour r t = 0) ∧
    tier_num_of_label "Price Tier 1" = some 1 ∧
    tier_num_of_label "Price Tier 2" = some 2 ∧
    tier_num_of_label "Price Tier 3" = some 3 := by
  refine ⟨?_, ?_, ?_, ?_, ?_, by decide, by decide, by decide⟩
  · intro r t q h
    unfold calculate_price_rate
    rw [h]
  · intro r t h
    unfold calculate_price_rate
    rw [h]
  · intro r t sq cq h1 h2 hpos
    unfold calculate_pay_rate_per_hour
    rw [h1, h2]
    simp only [if_pos hpos]
  · intro r t sq h1 h2
    unfold calculate_pay_rate_per_hour
    rw [h1, h2]
    simp only [lt_irrefl, if_false]
  · intro r t h
    rcases h with h | h
    · cases hc : parseRat? r.charge_block_duration <;>
        simp [calculate_pay_rate_per_hour, h, hc]
    · cases hs : parseRat? r.recommended_staff_rate <;>
        simp [calculate_pay_rate_per_hour, h, hs]

/-- A well-formed catalog row instantiating C8. -/
def rowC8b : ServiceRow :=
  { id := "8"
    service_type_id := "1"
    number_of_pets := "1 pet"
    min_duration := "30"
    max_duration := "90"
    duration_granularity := "30"
    charge_block_duration := "60"
    recommended_staff_rate := "12"
    recommended_customer_rate := "10"
    is_active := "true" }

/-- Witness for C8 at a concrete input. -/
theorem claim_C8_witness :
    calculate_price_rate rowC8b 1 = 10 + ((1 : Int) : ℚ) * (1 / 100) :=
  claim_C8.1 rowC8b 1 10 rfl

/-! ## Claim C2: the pricing resolver's pet-count fallback -/

/-- An appointment asking for 3 pets. -/
def aptC2 : Appt :=
  { service_type := "Walk"
    customer := "Customer 1"
    number_of_pets := "3 pets"
    date := 0
    start_time := 540
    staff_pay_tier := "Pay Tier 1"
    price_tier := "Price Tier 1"
    is_recurring := false
    section_index := 0
    duration := some 60
    end_time := none }

/-- An active catalog row for 2 pets with the matching service type and
charge-block duration. -/
def rowC2 : ServiceRow :=
  { id := "5"
    service_type_id := "1"
    number_of_pets := "2 pets"
    min_duration := "30"
    max_duration := "90"
    duration_granularity := "30"
    charge_block_duration := "60"
    recommended_staff_rate := "12"
    recommended_customer_rate := "10"
    is_active := "true" }

/-- `rowC2` joined with its service-type name. -/
def mrowC2 : MergedRow :=
  { name := some "Walk", row := rowC2 }

/-- Claim C2's failing input, evaluated: the appointment's pet count
("3 pets") matches the single catalog row ("2 pets") neither textually nor
by extracted cardinal, yet `calculate_appointment_price` returns that row's
tier-1 price instead of the "no match" (`None`) its own comment promises —
when the numeric fallback finds nothing the code keeps the unfiltered
duration-matched rows and uses the first one. -/
theorem claim_C2 :
    calculate_appointment_price aptC2 [mrowC2] =
      some (some (calculate_price_rate rowC2 1)) ∧
    calculate_appointment_price aptC2 [mrowC2] ≠ some none ∧
    pyLower (pyTrim aptC2.number_of_pets) ≠
      pyLower (pyTrim mrowC2.row.number_of_pets) ∧
    extract_pets_num (pyLower (pyTrim aptC2.number_of_pets)) ≠
      extract_pets_num (pyLower (pyTrim mrowC2.row.number_of_pets)) ∧
    calculate_price_rate rowC2 1 = 10 + ((1 : Int) : ℚ) * (1 / 100) := by
  have h1 : calculate_appointment_price aptC2 [mrowC2] =
      some (some (calculate_price_rate rowC2 1)) := rfl
  refine ⟨h1, ?_, by decide, by decide, ?_⟩
  · rw [h1]
    simp
  · unfold calculate_price_rate
    rw [show parseRat? rowC2.recommended_customer_rate = some 10 from rfl]

/-! ## Claim C4: the invoice aggregator -/

lemma charListLe_total : ∀ as bs : List Char,
    charListLe as bs = true ∨ charListLe bs as = true := by
  intro as
  induction as with
  | nil => intro bs ; left ; rfl
  | cons a as ih =>
    intro bs
    cases bs with
    | nil => right ; rfl
    | cons b bs =>
      simp only [charListLe]
      rcases Nat.lt_trichotomy a.toNat b.toNat with h | h | h
      · left
        rw [if_pos h]
      · rw [if_neg (by omega), if_neg (by omega), if_neg (by omega),
          if_neg (by omega)]
        exact ih bs
      · right
        rw [if_pos h]

lemma charListLe_trans : ∀ as bs cs : List Char, charListLe as bs = true →
    charListLe bs cs = true → charListLe as cs = true := by
  intro as
  induction as with
  | nil => intro bs cs h1 h2 ; rfl
  | cons a as ih =>
    intro bs cs h1 h2
    cases bs with
    | nil => simp [charListLe] at h1
    | cons b bs =>
      cases cs with
      | nil => simp [charListLe] at h2
      | cons c cs =>
        simp only [charListLe] at h1 h2 ⊢
        by_cases hab : a.toNat < b.toNat
        · by_cases hbc : b.toNat < c.toNat
          · rw [if_pos (by omega)]
          · rw [if_neg hbc] at h2
            by_cases hcb : c.toNat < b.toNat
            · rw [if_pos hcb] at h2
              simp at h2
            · rw [if_pos (by omega)]
        · rw [if_neg hab] at h1
          by_cases hba : b.toNat < a.toNat
          · rw [if_pos hba] at h1
            simp at h1
          · rw [if_neg hba] at h1
            by_cases hbc : b.toNat < c.toNat
            · rw [if_pos (by omega)]
            · rw [if_neg hbc] at h2
              by_cases hcb : c.toNat < b.toNat
              · rw [if_pos hcb] at h2
                simp at h2
              · rw [if_neg hcb] at h2
                rw [if_neg (by omega), if_neg (by omega)]
                exact ih bs cs h1 h2

lemma char_eq_of_toNat_eq {a b : Char} (h : a.toNat = b.toNat) : a = b := by
  have ha := Char.ofNat_toNat a
  have hb := Char.ofNat_toNat b
  rw [← ha, ← hb, h]

lemma charListLe_antisymm : ∀ as bs : List Char, charListLe as bs = true →
    charListLe bs as = true → as = bs := by
  intro as
  induction as with
  | nil =>
    intro bs h1 h2
    cases bs with
    | nil => rfl
    | cons b bs => simp [charListLe] at h2
  | cons a as ih =>
    intro bs h1 h2
    cases bs with
    | nil => simp [charListLe] at h1
    | cons b bs =>
      simp only [charListLe] at h1 h2
      rcases Nat.lt_trichotomy a.toNat b.toNat with h | h | h
      · rw [if_neg (by omega), if_pos h] at h2
        simp at h2
      · rw [if_neg (by omega), if_neg (by omega)] at h1
        rw [if_neg (by omega), if_neg (by omega)] at h2
        rw [ih bs h1 h2, char_eq_of_toNat_eq h]
      · rw [if_neg (by omega), if_pos h] at h1
        simp at h1

instance : IsTotal InvoiceLine lineLe :=
  ⟨fun a b => charListLe_total a.key.data b.key.data⟩

instance : IsTrans InvoiceLine lineLe :=
  ⟨fun _ _ _ h1 h2 => charListLe_trans _ _ _ h1 h2⟩

lemma key_eq_of_lineLe {a b : InvoiceLine} (h1 : lineLe a b)
    (h2 : lineLe b a) : a.key = b.key := by
  have h := charListLe_antisymm _ _ h1 h2
  exact congrArg String.mk h

lemma keys_updateAcc (acc : List InvoiceLine) (k : String) (p : ℚ) :
    (updateAcc acc k p).map InvoiceLine.key =
      if k ∈ acc.map InvoiceLine.key then acc.map InvoiceLine.key
      else acc.map InvoiceLine.key ++ [k] := by
  induction acc with
  | nil => simp [updateAcc]
  | cons l0 rest ih =>
    simp only [updateAcc]
    by_cases h0 : l0.key = k
    · rw [if_pos h0]
      simp [h0]
    · rw [if_neg h0]
      simp only [List.map_cons, ih]
      by_cases hmem : k ∈ rest.map InvoiceLine.key
      · rw [if_pos hmem, if_pos (by simp [hmem])]
      · rw [if_neg hmem,
          if_neg (by simp [hmem] ; exact fun h => absurd h.symm h0)]
        simp

lemma find?_key_cons_pos (a : InvoiceLine) (l : List InvoiceLine)
    (x : String) (h : a.key = x) :
    List.find? (fun l => l.key == x) (a :: l) = some a := by
  have hb : (a.key == x) = true := by simp [h]
  simp [List.find?_cons, hb]

lemma find?_key_cons_neg (a : InvoiceLine) (l : List InvoiceLine)
    (x : String) (h : ¬ a.key = x) :
    List.find? (fun l => l.key == x) (a :: l) =
      List.find? (fun l => l.key == x) l := by
  have hb : (a.key == x) = false := by simp [h]
  simp [List.find?_cons, hb]

lemma find?_updateAcc (acc : List InvoiceLine) (k : String) (p : ℚ)
    (k2 : String) :
    (updateAcc acc k p).find? (fun l => l.key == k2) =
      if k2 = k then
        match acc.find? (fun l => l.key == k) with
        | some l =>
          some { key := l.key, count := l.count + 1, total := l.total + p }
        | none => some { key := k, count := 1, total := p }
      else acc.find? (fun l => l.key == k2) := by
  induction acc with
  | nil =>
    simp only [updateAcc]
    by_cases h : k2 = k
    · rw [if_pos h, find?_key_cons_pos ⟨k, 1, p⟩ [] k2 h.symm,
        List.find?_nil]
    · rw [if_neg h, find?_key_cons_neg ⟨k, 1, p⟩ [] k2
        (show ¬ k = k2 from fun hh => h hh.symm)]
  | cons l0 rest ih =>
    simp only [updateAcc]
    by_cases h0 : l0.key = k
    · rw [if_pos h0]
      by_cases h2 : k2 = k
      · rw [if_pos h2,
          find?_key_cons_pos ⟨l0.key, l0.count + 1, l0.total + p⟩ rest k2
            (h0.trans h2.symm),
          find?_key_cons_pos l0 rest k h0]
      · rw [if_neg h2,
          find?_key_cons_neg ⟨l0.key, l0.count + 1, l0.total + p⟩ rest k2
            (show ¬ l0.key = k2 from fun hh => h2 (h0.symm.trans hh).symm),
          find?_key_cons_neg l0 rest k2
            (show ¬ l0.key = k2 from fun hh => h2 (h0.symm.trans hh).symm)]
    · rw [if_neg h0]
      by_cases h2 : k2 = k
      · rw [if_pos h2,
          find?_key_cons_neg l0 (updateAcc rest k p) k2
            (show ¬ l0.key = k2 from fun hh => h0 (hh.trans h2)),
          ih, if_pos h2, find?_key_cons_neg l0 rest k h0]
      · rw [if_neg h2]
        by_cases hp : l0.key = k2
        · rw [find?_key_cons_pos l0 (updateAcc rest k p) k2 hp,
            find?_key_cons_pos l0 rest k2 hp]
        · rw [find?_key_cons_neg l0 (updateAcc rest k p) k2 hp,
            ih, if_neg h2, find?_key_cons_neg l0 rest k2 hp]

lemma buildAcc_nil (acc : List InvoiceLine) : buildAcc [] acc = acc := rfl

lemma buildAcc_cons (k : String) (p : ℚ) (rest : List (String × ℚ))
    (acc : List InvoiceLine) :
    buildAcc ((k, p) :: rest) acc = buildAcc rest (updateAcc acc k p) := rfl

lemma mem_keys_updateAcc (acc : List InvoiceLine) (k : String) (p : ℚ)
    (k2 : String) :
    k2 ∈ (updateAcc acc k p).map InvoiceLine.key ↔
      k2 ∈ acc.map InvoiceLine.key ∨ k2 = k := by
  rw [keys_updateAcc]
  split
  · constructor
    · exact fun h => Or.inl h
    · rintro (h | rfl)
      · exact h
      · assumption
  · simp

lemma keys_mem_buildAcc (items : List (String × ℚ)) :
    ∀ (acc : List InvoiceLine) (k2 : String),
      k2 ∈ (buildAcc items acc).map InvoiceLine.key ↔
        k2 ∈ acc.map InvoiceLine.key ∨ k2 ∈ items.map Prod.fst := by
  induction items with
  | nil => simp [buildAcc_nil]
  | cons it rest ih =>
    intro acc k2
    obtain ⟨k, p⟩ := it
    rw [buildAcc_cons, ih, mem_keys_updateAcc]
    simp only [List.map_cons, List.mem_cons]
    tauto

lemma keys_nodup_buildAcc (items : List (String × ℚ)) :
    ∀ acc : List InvoiceLine, (acc.map InvoiceLine.key).Nodup →
      ((buildAcc items acc).map InvoiceLine.key).Nodup := by
  induction items with
  | nil => exact fun acc h => h
  | cons it rest ih =>
    intro acc h
    obtain ⟨k, p⟩ := it
    rw [buildAcc_cons]
    refine ih _ ?_
    rw [keys_updateAcc]
    split
    · exact h
    · rw [List.nodup_append]
      refine ⟨h, List.nodup_singleton k, ?_⟩
      intro x hx hk
      rw [List.mem_singleton] at hk
      subst hk
      exact absurd hx (by assumption)

lemma keyCount_cons (k2 k : String) (p : ℚ) (rest : List (String × ℚ)) :
    keyCount k2 ((k, p) :: rest) =
      keyCount k2 rest + (if k = k2 then 1 else 0) := by
  simp only [keyCount, List.countP_cons]
  by_cases h : k = k2 <;> simp [h]

lemma keyTotal_cons (k2 k : String) (p : ℚ) (rest : List (String × ℚ)) :
    keyTotal k2 ((k, p) :: rest) =
      (if k = k2 then p else 0) + keyTotal k2 rest := by
  simp only [keyTotal, List.filter_cons]
  by_cases h : k = k2 <;> simp [h]

lemma keyCount_append (k : String) (a b : List (String × ℚ)) :
    keyCount k (a ++ b) = keyCount k a + keyCount k b := by
  simp [keyCount, List.countP_append]

lemma keyTotal_append (k : String) (a b : List (String × ℚ)) :
    keyTotal k (a ++ b) = keyTotal k a + keyTotal k b := by
  simp [keyTotal, List.filter_append]

lemma keyCount_pos_iff (k : String) (items : List (String × ℚ)) :
    k ∈ items.map Prod.fst ↔ 0 < keyCount k items := by
  rw [keyCount, List.countP_pos_iff]
  simp only [List.mem_map, beq_iff_eq]

lemma find?_buildAcc (items : List (String × ℚ)) :
    ∀ (acc : List InvoiceLine) (k2 : String),
      (buildAcc items acc).find? (fun l => l.key == k2) =
        match acc.find? (fun l => l.key == k2) with
        | some l =>
          some { key := l.key, count := l.count + keyCount k2 items,
                 total := l.total + keyTotal k2 items }
        | none =>
          if keyCount k2 items = 0 then none
          else some { key := k2, count := keyCount k2 items,
                      total := keyTotal k2 items } := by
  induction items with
  | nil =>
    intro acc k2
    rw [buildAcc_nil]
    cases h : acc.find? (fun l => l.key == k2) with
    | none => simp [keyCount, keyTotal]
    | some l => simp [keyCount, keyTotal]
  | cons it rest ih =>
    intro acc k2
    obtain ⟨k, p⟩ := it
    rw [buildAcc_cons, ih (updateAcc acc k p) k2, find?_updateAcc,
      keyCount_cons, keyTotal_cons]
    by_cases h2 : k2 = k
    · rw [if_pos h2, if_pos h2.symm, if_pos h2.symm]
      cases hfd : acc.find? (fun l => l.key == k2) with
      | none =>
        have e1 : 1 + keyCount k2 rest = keyCount k2 rest + 1 := by omega
        have e2 : ¬ (keyCount k2 rest + 1 = 0) := by omega
        subst h2
        rw [hfd]
        dsimp only
        rw [if_neg e2, e1]
      | some l =>
        have e1 : l.count + 1 + keyCount k2 rest =
            l.count + (keyCount k2 rest + 1) := by omega
        have e2 : l.total + p + keyTotal k2 rest =
            l.total + (p + keyTotal k2 rest) := by ring
        subst h2
        rw [hfd]
        dsimp only
        rw [e1, e2]
    · rw [if_neg h2,
        if_neg (show ¬ k = k2 from fun hh => h2 hh.symm),
        if_neg (show ¬ k = k2 from fun hh => h2 hh.symm)]
      simp

lemma mem_iff_find? (acc : List InvoiceLine)
    (hnd : (acc.map InvoiceLine.key).Nodup) (l : InvoiceLine) :
    l ∈ acc ↔ acc.find? (fun x => x.key == l.key) = some l := by
  induction acc with
  | nil => simp
  | cons a rest ih =>
    simp only [List.map_cons, List.nodup_cons] at hnd
    obtain ⟨hnk, hnd2⟩ := hnd
    by_cases hk : a.key = l.key
    · rw [List.find?_cons_of_pos _ (by simp [hk])]
      constructor
      · intro hmem
        rcases List.mem_cons.mp hmem with rfl | hmem
        · rfl
        · exact absurd (hk ▸ List.mem_map_of_mem InvoiceLine.key hmem) hnk
      · intro h
        rw [List.mem_cons]
        left
        exact (Option.some_inj.mp h).symm
    · rw [List.find?_cons_of_neg _ (by simp [hk]), List.mem_cons, ih hnd2]
      constructor
      · rintro (rfl | h)
        · exact absurd rfl hk
        · exact h
      · exact Or.inr

lemma invoice_lines_char (items : List (String × ℚ)) :
    List.Sorted lineLe (List.insertionSort lineLe (buildAcc items [])) ∧
    ((List.insertionSort lineLe
        (buildAcc items [])).map InvoiceLine.key).Nodup ∧
    ∀ l : InvoiceLine, l ∈ List.insertionSort lineLe (buildAcc items []) ↔
      l.key ∈ items.map Prod.fst ∧ l.count = keyCount l.key items ∧
        l.total = keyTotal l.key items := by
  have hnd : ((buildAcc items []).map InvoiceLine.key).Nodup :=
    keys_nodup_buildAcc items [] (by simp)
  refine ⟨List.sorted_insertionSort _ _, ?_, ?_⟩
  · exact (((List.perm_insertionSort lineLe
      (buildAcc items [])).map InvoiceLine.key).nodup_iff).mpr hnd
  · intro l
    rw [List.mem_insertionSort, mem_iff_find? _ hnd l,
      find?_buildAcc items [] l.key]
    simp only [List.find?_nil]
    rw [keyCount_pos_iff]
    by_cases hz : keyCount l.key items = 0
    · rw [if_pos hz]
      simp [hz]
    · rw [if_neg hz]
      cases l with
      | mk k c t =>
        simp only [Option.some_inj, InvoiceLine.mk.injEq, true_and]
        constructor
        · rintro ⟨rfl, rfl⟩
          exact ⟨Nat.pos_of_ne_zero hz, rfl, rfl⟩
        · rintro ⟨-, rfl, rfl⟩
          exact ⟨rfl, rfl⟩

lemma sorted_lines_ext : ∀ (l1 l2 : List InvoiceLine),
    List.Sorted lineLe l1 → List.Sorted lineLe l2 →
    (l1.map InvoiceLine.key).Nodup → (l2.map InvoiceLine.key).Nodup →
    (∀ x, x ∈ l1 ↔ x ∈ l2) → l1 = l2 := by
  intro l1
  induction l1 with
  | nil =>
    intro l2 _ _ _ _ hmem
    cases l2 with
    | nil => rfl
    | cons b t2 => exact absurd ((hmem b).mpr (List.mem_cons_self b t2)) (by
        simp)
  | cons a t1 ih =>
    intro l2 s1 s2 n1 n2 hmem
    cases l2 with
    | nil => exact absurd ((hmem a).mp (List.mem_cons_self a t1)) (by simp)
    | cons b t2 =>
      simp only [List.map_cons, List.nodup_cons] at n1 n2
      obtain ⟨hk1, n1t⟩ := n1
      obtain ⟨hk2, n2t⟩ := n2
      have hab : a = b := by
        rcases List.mem_cons.mp ((hmem a).mp (List.mem_cons_self a t1)) with
          h | ha2
        · exact h
        rcases List.mem_cons.mp ((hmem b).mpr (List.mem_cons_self b t2)) with
          h | hb1
        · exact h.symm
        have hle1 : lineLe a b := List.rel_of_sorted_cons s1 b hb1
        have hle2 : lineLe b a := List.rel_of_sorted_cons s2 a ha2
        have hkey := key_eq_of_lineLe hle1 hle2
        exact absurd (hkey ▸ List.mem_map_of_mem InvoiceLine.key hb1) hk1
      subst hab
      have hmem2 : ∀ x, x ∈ t1 ↔ x ∈ t2 := by
        intro x
        constructor
        · intro hx
          rcases List.mem_cons.mp ((hmem x).mp
            (List.mem_cons_of_mem a hx)) with rfl | h
          · exact absurd (List.mem_map_of_mem InvoiceLine.key hx) hk1
          · exact h
        · intro hx
          rcases List.mem_cons.mp ((hmem x).mpr
            (List.mem_cons_of_mem a hx)) with rfl | h
          · exact absurd (List.mem_map_of_mem InvoiceLine.key hx) hk2
          · exact h
      rw [ih t2 (List.sorted_cons.mp s1).2 (List.sorted_cons.mp s2).2
        n1t n2t hmem2]

/-! ## Invoice aggregation: permutation and concatenation behavior -/

/-- The effect of one appointment on the priced-item list: `none` is a
propagated pricing exception, `some none` a skipped (duration-less)
appointment, `some (some it)` a priced item (src/app.py lines 912-930). -/
def itemStep (merged : List MergedRow) (apt : Appt) :
    Option (Option (String × ℚ)) :=
  match apt.duration with
  | none => some none
  | some d =>
    (calculate_appointment_price apt merged).map fun p =>
      some (invoice_key apt d, p.getD 0)

lemma itemsOf_cons (merged : List MergedRow) (apt : Appt)
    (rest : List Appt) :
    itemsOf merged (apt :: rest) =
      match itemStep merged apt with
      | none => none
      | some none => itemsOf merged rest
      | some (some it) =>
        (itemsOf merged rest).map fun items => it :: items := by
  cases hd : apt.duration with
  | none => simp [itemsOf, itemStep, hd]
  | some d =>
    cases hp : calculate_appointment_price apt merged with
    | none => simp [itemsOf, itemStep, hd, hp]
    | some p => simp [itemsOf, itemStep, hd, hp]

lemma itemsOf_perm (merged : List MergedRow) {a1 a2 : List Appt}
    (hp : a1.Perm a2) :
    (itemsOf merged a1 = none ∧ itemsOf merged a2 = none) ∨
    ∃ i1 i2, itemsOf merged a1 = some i1 ∧ itemsOf merged a2 = some i2 ∧
      i1.Perm i2 := by
  induction hp with
  | nil => exact Or.inr ⟨[], [], rfl, rfl, List.Perm.nil⟩
  | cons x h ih =>
    rw [itemsOf_cons, itemsOf_cons]
    cases hs : itemStep merged x with
    | none => exact Or.inl ⟨rfl, rfl⟩
    | some o =>
      cases o with
      | none => exact ih
      | some it =>
        rcases ih with ⟨hn1, hn2⟩ | ⟨i1, i2, h1, h2, hperm⟩
        · rw [hn1, hn2]
          exact Or.inl ⟨rfl, rfl⟩
        · rw [h1, h2]
          exact Or.inr ⟨it :: i1, it :: i2, rfl, rfl, hperm.cons it⟩
  | swap x y l =>
    rw [itemsOf_cons merged y (x :: l), itemsOf_cons merged x l,
      itemsOf_cons merged x (y :: l), itemsOf_cons merged y l]
    cases hsx : itemStep merged x with
    | none =>
      cases hsy : itemStep merged y with
      | none => exact Or.inl ⟨rfl, rfl⟩
      | some oy =>
        cases oy with
        | none => exact Or.inl ⟨rfl, rfl⟩
        | some ity => exact Or.inl ⟨rfl, rfl⟩
    | some ox =>
      cases ox with
      | none =>
        cases hsy : itemStep merged y with
        | none => exact Or.inl ⟨rfl, rfl⟩
        | some oy =>
          cases oy with
          | none =>
            cases hl : itemsOf merged l with
            | none => exact Or.inl ⟨rfl, rfl⟩
            | some i => exact Or.inr ⟨i, i, rfl, rfl, List.Perm.refl i⟩
          | some ity =>
            cases hl : itemsOf merged l with
            | none => exact Or.inl ⟨rfl, rfl⟩
            | some i =>
              exact Or.inr ⟨ity :: i, ity :: i, rfl, rfl, List.Perm.refl _⟩
      | some itx =>
        cases hsy : itemStep merged y with
        | none => exact Or.inl ⟨rfl, rfl⟩
        | some oy =>
          cases oy with
          | none =>
            cases hl : itemsOf merged l with
            | none => exact Or.inl ⟨rfl, rfl⟩
            | some i =>
              exact Or.inr ⟨itx :: i, itx :: i, rfl, rfl, List.Perm.refl _⟩
          | some ity =>
            cases hl : itemsOf merged l with
            | none => exact Or.inl ⟨rfl, rfl⟩
            | some i =>
              exact Or.inr ⟨ity :: itx :: i, itx :: ity :: i, rfl, rfl,
                List.Perm.swap itx ity i⟩
  | trans h12 h23 ih12 ih23 =>
    rcases ih12 with ⟨ha, hb⟩ | ⟨i1, i2, h1, h2, p12⟩
    · rcases ih23 with ⟨hc, hd⟩ | ⟨j2, j3, g2, g3, p23⟩
      · exact Or.inl ⟨ha, hd⟩
      · rw [hb] at g2
        simp at g2
    · rcases ih23 with ⟨hc, hd⟩ | ⟨j2, j3, g2, g3, p23⟩
      · rw [h2] at hc
        simp at hc
      · have hij : i2 = j2 := Option.some_inj.mp (h2.symm.trans g2)
        subst hij
        exact Or.inr ⟨i1, j3, h1, g3, p12.trans p23⟩

lemma itemsOf_append (merged : List MergedRow) (a b : List Appt) :
    itemsOf merged (a ++ b) =
      match itemsOf merged a, itemsOf merged b with
      | some i1, some i2 => some (i1 ++ i2)
      | _, _ => none := by
  induction a with
  | nil =>
    simp only [List.nil_append]
    cases hb : itemsOf merged b with
    | none => rfl
    | some i2 => rfl
  | cons apt rest ih =>
    rw [List.cons_append, itemsOf_cons merged apt (rest ++ b), ih,
      itemsOf_cons merged apt rest]
    cases hs : itemStep merged apt with
    | none => rfl
    | some o =>
      cases o with
      | none => rfl
      | some it =>
        cases h1 : itemsOf merged rest with
        | none => rfl
        | some i1 =>
          cases h2 : itemsOf merged b with
          | none => rfl
          | some i2 => rfl

lemma insertionSort_buildAcc_congr (i1 i2 : List (String × ℚ))
    (hperm : i1.Perm i2) :
    List.insertionSort lineLe (buildAcc i1 []) =
      List.insertionSort lineLe (buildAcc i2 []) := by
  obtain ⟨s1, n1, m1⟩ := invoice_lines_char i1
  obtain ⟨s2, n2, m2⟩ := invoice_lines_char i2
  refine sorted_lines_ext _ _ s1 s2 n1 n2 ?_
  intro x
  rw [m1 x, m2 x, keyCount_pos_iff, keyCount_pos_iff]
  have hc : keyCount x.key i1 = keyCount x.key i2 := by
    unfold keyCount
    exact hperm.countP_eq _
  have ht : keyTotal x.key i1 = keyTotal x.key i2 := by
    unfold keyTotal
    exact ((hperm.filter _).map _).sum_eq
  rw [hc, ht]

lemma double_line_keys (lines : List InvoiceLine) :
    (lines.map
        (fun l =>
          ({ key := l.key, count := 2 * l.count, total := 2 * l.total } :
            InvoiceLine))).map InvoiceLine.key =
      lines.map InvoiceLine.key := by
  rw [List.map_map]
  rfl

lemma double_sorted_eq (items : List (String × ℚ)) :
    List.insertionSort lineLe (buildAcc (items ++ items) []) =
      (List.insertionSort lineLe (buildAcc items [])).map
        (fun l => { key := l.key, count := 2 * l.count,
                    total := 2 * l.total }) := by
  obtain ⟨s1, n1, m1⟩ := invoice_lines_char (items ++ items)
  obtain ⟨s2, n2, m2⟩ := invoice_lines_char items
  refine sorted_lines_ext _ _ s1 ?_ n1 ?_ ?_
  · exact List.Pairwise.map _ (fun a b hab => hab) s2
  · rw [double_line_keys]
    exact n2
  · intro x
    rw [m1 x]
    constructor
    · rintro ⟨hmem, hc, ht⟩
      have hmem2 : x.key ∈ items.map Prod.fst := by
        rw [List.map_append] at hmem
        rcases List.mem_append.mp hmem with h | h <;> exact h
      refine List.mem_map.mpr
        ⟨⟨x.key, keyCount x.key items, keyTotal x.key items⟩,
          (m2 _).mpr ⟨hmem2, rfl, rfl⟩, ?_⟩
      have hc2 : x.count = 2 * keyCount x.key items := by
        rw [hc, keyCount_append]
        omega
      have ht2 : x.total = 2 * keyTotal x.key items := by
        rw [ht, keyTotal_append]
        ring
      cases x with
      | mk k c t =>
        dsimp only at hc2 ht2 ⊢
        rw [hc2, ht2]
    · intro hx
      obtain ⟨l, hl, rfl⟩ := List.mem_map.mp hx
      rw [m2 l] at hl
      obtain ⟨hk, hcc, htt⟩ := hl
      refine ⟨?_, ?_, ?_⟩
      · dsimp only
        rw [List.map_append]
        exact List.mem_append.mpr (Or.inl hk)
      · dsimp only
        rw [keyCount_append, hcc]
        omega
      · dsimp only
        rw [keyTotal_append, htt]
        ring

lemma calc_char (services : List ServiceRow) (types : List ServiceTypeRec)
    (appointments : List Appt) (lines : List InvoiceLine)
    (h : calculate_invoice_data appointments services types = some lines) :
    List.Sorted lineLe lines ∧ (lines.map InvoiceLine.key).Nodup ∧
    (appointments.isEmpty = false → services.isEmpty = false →
      (get_service_types types).isEmpty = false →
      ∀ items,
        itemsOf (merged_services_of services (get_service_types types))
          appointments = some items →
        ∀ l : InvoiceLine, l ∈ lines ↔
          (0 < keyCount l.key items ∧ l.count = keyCount l.key items ∧
            l.total = keyTotal l.key items)) := by
  simp only [calculate_invoice_data] at h
  by_cases he : appointments.isEmpty = true
  · rw [if_pos he] at h
    have hl : lines = [] := (Option.some_inj.mp h).symm
    subst hl
    refine ⟨List.sorted_nil, by simp, ?_⟩
    intro hf
    rw [hf] at he
    exact absurd he Bool.false_ne_true
  · rw [if_neg he] at h
    by_cases hs : (services.isEmpty || (get_service_types types).isEmpty) = true
    · rw [if_pos hs] at h
      have hl : lines = [] := (Option.some_inj.mp h).symm
      subst hl
      refine ⟨List.sorted_nil, by simp, ?_⟩
      intro _ hf2 hf3
      rw [hf2, hf3] at hs
      exact absurd hs Bool.false_ne_true
    · rw [if_neg hs] at h
      cases hit : itemsOf (merged_services_of services (get_service_types types))
          appointments with
      | none =>
        rw [hit] at h
        simp at h
      | some items0 =>
        rw [hit] at h
        have h2 : some (List.insertionSort lineLe (buildAcc items0 [])) =
            some lines := h
        have hl : lines = List.insertionSort lineLe (buildAcc items0 []) :=
          (Option.some_inj.mp h2).symm
        subst hl
        obtain ⟨s1, n1, m1⟩ := invoice_lines_char items0
        refine ⟨s1, n1, ?_⟩
        intro _ _ _ items hitems l
        have hii : items = items0 := (Option.some_inj.mp hitems).symm
        subst hii
        rw [m1 l, keyCount_pos_iff]

lemma calculate_invoice_data_perm (services : List ServiceRow)
    (types : List ServiceTypeRec) {a1 a2 : List Appt} (hp : a1.Perm a2) :
    calculate_invoice_data a1 services types =
      calculate_invoice_data a2 services types := by
  have hemp : a1.isEmpty = a2.isEmpty := by
    have hl := hp.length_eq
    cases a1 <;> cases a2 <;> simp_all
  simp only [calculate_invoice_data]
  rw [hemp]
  by_cases he : a2.isEmpty = true
  · rw [if_pos he, if_pos he]
  · rw [if_neg he, if_neg he]
    by_cases hs : (services.isEmpty || (get_service_types types).isEmpty) = true
    · rw [if_pos hs, if_pos hs]
    · rw [if_neg hs, if_neg hs]
      rcases itemsOf_perm
          (merged_services_of services (get_service_types types)) hp with
        ⟨hn1, hn2⟩ | ⟨i1, i2, h1, h2, hpm⟩
      · rw [hn1, hn2]
      · rw [h1, h2]
        show some (List.insertionSort lineLe (buildAcc i1 [])) =
          some (List.insertionSort lineLe (buildAcc i2 []))
        rw [insertionSort_buildAcc_congr i1 i2 hpm]

lemma calculate_invoice_data_double (services : List ServiceRow)
    (types : List ServiceTypeRec) (appointments : List Appt)
    (lines : List InvoiceLine)
    (h : calculate_invoice_data appointments services types = some lines) :
    calculate_invoice_data (appointments ++ appointments) services types =
      some (lines.map fun l =>
        { key := l.key, count := 2 * l.count, total := 2 * l.total }) := by
  simp only [calculate_invoice_data] at h ⊢
  by_cases he : appointments.isEmpty = true
  · have ha : appointments = [] := List.isEmpty_iff.mp he
    subst ha
    rw [if_pos he] at h
    have hl : lines = [] := (Option.some_inj.mp h).symm
    subst hl
    simp
  · rw [if_neg he] at h
    have he2 : ¬ ((appointments ++ appointments).isEmpty = true) := by
      intro hh
      rw [List.isEmpty_iff] at hh
      exact he (by rw [List.isEmpty_iff]; exact (List.append_eq_nil.mp hh).1)
    rw [if_neg he2]
    by_cases hs : (services.isEmpty || (get_service_types types).isEmpty) = true
    · rw [if_pos hs] at h
      rw [if_pos hs]
      have hl : lines = [] := (Option.some_inj.mp h).symm
      subst hl
      rfl
    · rw [if_neg hs] at h
      rw [if_neg hs]
      cases hit : itemsOf (merged_services_of services (get_service_types types))
          appointments with
      | none =>
        rw [hit] at h
        simp at h
      | some items =>
        rw [hit] at h
        have h2 : some (List.insertionSort lineLe (buildAcc items [])) =
            some lines := h
        have hl : lines = List.insertionSort lineLe (buildAcc items []) :=
          (Option.some_inj.mp h2).symm
        subst hl
        rw [itemsOf_append, hit]
        show some (List.insertionSort lineLe (buildAcc (items ++ items) [])) =
          some ((List.insertionSort lineLe (buildAcc items [])).map fun l =>
            { key := l.key, count := 2 * l.count, total := 2 * l.total })
        rw [double_sorted_eq items]

/-- C4: `calculate_invoice_data` skips appointments with no duration, groups
the rest by the key `service_type ++ " - " ++ formatted duration` with
`count += 1` and `total += resolved price (or 0)` per group, and returns the
groups sorted ascending lexically by key without duplicate keys; the result
is invariant under permuting the appointments, and aggregating a list
concatenated with itself exactly doubles every group's count and total. -/
theorem claim_C4 :
    (∀ (services : List ServiceRow) (types : List ServiceTypeRec)
        (appointments : List Appt) (lines : List InvoiceLine),
      calculate_invoice_data appointments services types = some lines →
        List.Sorted lineLe lines ∧ (lines.map InvoiceLine.key).Nodup ∧
        (appointments.isEmpty = false → services.isEmpty = false →
          (get_service_types types).isEmpty = false →
          ∀ items,
            itemsOf (merged_services_of services (get_service_types types))
              appointments = some items →
            ∀ l : InvoiceLine, l ∈ lines ↔
              (0 < keyCount l.key items ∧ l.count = keyCount l.key items ∧
                l.total = keyTotal l.key items))) ∧
    (∀ (merged : List MergedRow) (apt : Appt) (rest : List Appt),
      apt.duration = none →
        itemsOf merged (apt :: rest) = itemsOf merged rest) ∧
    (∀ (merged : List MergedRow) (apt : Appt) (rest : List Appt) (d : Int)
        (p : Option ℚ),
      apt.duration = some d →
        calculate_appointment_price apt merged = some p →
        itemsOf merged (apt :: rest) =
          (itemsOf merged rest).map
            fun items => (invoice_key apt d, p.getD 0) :: items) ∧
    (∀ (services : List ServiceRow) (types : List ServiceTypeRec)
        (a1 a2 : List Appt), a1.Perm a2 →
      calculate_invoice_data a1 services types =
        calculate_invoice_data a2 services types) ∧
    (∀ (services : List ServiceRow) (types : List ServiceTypeRec)
        (appointments : List Appt) (lines : List InvoiceLine),
      calculate_invoice_data appointments services types = some lines →
        calculate_invoice_data (appointments ++ appointments) services types =
          some (lines.map fun l =>
            { key := l.key, count := 2 * l.count, total := 2 * l.total })) := by
  refine ⟨?_, ?_, ?_, ?_, ?_⟩
  · exact fun services types appointments lines h =>
      calc_char services types appointments lines h
  · intro merged apt rest hd
    simp [itemsOf, hd]
  · intro merged apt rest d p hd hp
    simp [itemsOf, hd, hp]
  · exact fun services types a1 a2 hp =>
      calculate_invoice_data_perm services types hp
  · exact fun services types appointments lines h =>
      calculate_invoice_data_double services types appointments lines h

def aptC4a : Appt :=
  { service_type := "Walk"
    customer := "Customer 1"
    number_of_pets := "1 pet"
    date := 0
    start_time := 540
    staff_pay_tier := "Pay Tier 1"
    price_tier := "Price Tier 1"
    is_recurring := false
    section_index := 0
    duration := some 30
    end_time := none }

def aptC4b : Appt :=
  { service_type := "Sitting"
    customer := "Customer 2"
    number_of_pets := "2 pets"
    date := 1
    start_time := 600
    staff_pay_tier := "Pay Tier 2"
    price_tier := "Price Tier 2"
    is_recurring := false
    section_index := 1
    duration := none
    end_time := some 1020 }

/-- C4 witness: the aggregate of two concrete appointments is unchanged by
swapping them, and the duration-less appointment is skipped by the
per-appointment stage. -/
theorem claim_C4_witness :
    calculate_invoice_data [aptC4a, aptC4b] [] [] =
      calculate_invoice_data [aptC4b, aptC4a] [] [] ∧
    itemsOf [] (aptC4b :: [aptC4a]) = itemsOf [] [aptC4a] :=
  ⟨claim_C4.2.2.2.1 [] [] [aptC4a, aptC4b] [aptC4b, aptC4a]
      (List.Perm.swap aptC4b aptC4a []),
    claim_C4.2.1 [] aptC4b [aptC4a] rfl⟩

end PetSched
